import Mathlib

/-
Verification of the workout-template mutation core
(workout_llm_helper.py, workout_template_chatbot.py).

The Python source is embedded shallowly: dictionaries become association
lists (insertion-ordered, like Python dicts), floats become exact
rationals, Python truthiness is modelled explicitly where the source
relies on it, and the two catalog-accessor collaborators
(id_for_name, pick_from_muscles) whose code is not in the repository are
modelled from their interface description in the specification.
String operations are implemented structurally on character lists so
that every definition evaluates inside the kernel.
-/

namespace WT

/-! ### Python string primitives (on character lists) -/

abbrev Chars := List Char

/-- Python `s.lower()`. -/
def lowerC (l : Chars) : Chars := l.map Char.toLower

/-- Python `s.strip()`: drop whitespace at both ends. -/
def trimC (l : Chars) : Chars :=
  ((l.dropWhile Char.isWhitespace).reverse.dropWhile Char.isWhitespace).reverse

/-- Python `s.replace(" ", "")`. -/
def dropSpaces (l : Chars) : Chars := l.filter (fun c => c ≠ ' ')

/-- Whether `pat` is a prefix of `l` (Python slice comparison). -/
def isPrefC : Chars → Chars → Bool
  | [], _ => true
  | _ :: _, [] => false
  | a :: as, b :: bs => a == b && isPrefC as bs

/-- Python `pat in l` on strings: substring containment. -/
def isInfC (pat : Chars) : Chars → Bool
  | [] => isPrefC pat []
  | l@(_ :: rest) => isPrefC pat l || isInfC pat rest

/-- Python `s.split()`: whitespace-separated words, no empties.
`acc` holds the (reversed) current word. -/
def splitWsAux : Chars → Chars → List Chars
  | [], acc => if acc = [] then [] else [acc.reverse]
  | c :: rest, acc =>
    if c.isWhitespace then
      if acc = [] then splitWsAux rest [] else acc.reverse :: splitWsAux rest []
    else splitWsAux rest (c :: acc)

def splitWs (l : Chars) : List Chars := splitWsAux l []

/-- Python `s.replace(pat, rep)` for a non-empty `pat`: replace every
(leftmost, non-overlapping) occurrence.  Fuel = input length. -/
def replaceAllAux (pat rep : Chars) : Nat → Chars → Chars
  | 0, s => s
  | _ + 1, [] => []
  | fuel + 1, c :: rest =>
    if pat ≠ [] ∧ isPrefC pat (c :: rest) then
      rep ++ replaceAllAux pat rep fuel ((c :: rest).drop pat.length)
    else c :: replaceAllAux pat rep fuel rest

def replaceAllC (pat rep s : Chars) : Chars := replaceAllAux pat rep s.length s

/-- `s.lower().strip()` of a Python string, as characters. -/
def pyCleanC (s : String) : Chars := trimC (lowerC s.data)

/-! ### calculate_similarity (workout_llm_helper.py:2289-2414) -/

/-- One token-pair test of the token-overlap stage:
`token1 == token2 or token1 in token2 or token2 in token1`. -/
def tokenMatchB (t1 t2 : Chars) : Bool :=
  t1 == t2 || isInfC t1 t2 || isInfC t2 t1

/-- The `token_matches` count: tokens of the first list that match some
token of the second (the inner loop breaks at the first match). -/
def tokenMatches (ts1 ts2 : List Chars) : Nat :=
  ts1.countP (fun t1 => ts2.any (fun t2 => tokenMatchB t1 t2))

/-- Inner loop of the row-based Levenshtein computation: given character
`c1`, the remaining characters of `s2`, the tail of the previous row
aligned so that its head is `previous_row[j]`, and the last entry of the
current row, produce the rest of the current row. -/
def levRowAux (c1 : Char) : Chars → List Nat → Nat → List Nat
  | [], _, _ => []
  | _ :: _, [], _ => []
  | c2 :: cs, p0 :: prest, cur =>
    let ins := prest.headD 0 + 1
    let del := cur + 1
    let sub := p0 + (if c1 == c2 then 0 else 1)
    let m := min ins (min del sub)
    m :: levRowAux c1 cs prest m

/-- Outer loop of the Levenshtein computation: fold the rows over `s1`. -/
def levFold (s2 : Chars) : Chars → List Nat → Nat → List Nat
  | [], prev, _ => prev
  | c1 :: rest, prev, i =>
    levFold s2 rest ((i + 1) :: levRowAux c1 s2 prev (i + 1)) (i + 1)

/-- `levenshtein_distance` body after the argument swap: assumes
`s1.length ≥ s2.length` like the recursive call arranges. -/
def levCore (s1 s2 : Chars) : Nat :=
  if s2.length = 0 then s1.length
  else ((levFold s2 s1 (List.range (s2.length + 1)) 0).getLast?).getD 0

/-- `levenshtein_distance(s1, s2)` with the initial swap
`if len(s1) < len(s2): return levenshtein_distance(s2, s1)`. -/
def levenshtein (a b : Chars) : Nat :=
  if a.length < b.length then levCore b a else levCore a b

/-- The `exercise_corrections` table, in source (dict insertion) order. -/
def exerciseCorrections : List (String × String) :=
  [("dumbell", "dumbbell"), ("dumbel", "dumbbell"), ("dumbbel", "dumbbell"),
   ("benchpress", "bench press"), ("benchpres", "bench press"),
   ("pushup", "push up"), ("pullup", "pull up"), ("situp", "sit up"),
   ("chinup", "chin up"), ("bicep", "biceps"), ("tricep", "triceps"),
   ("shoulderpress", "shoulder press"), ("chestpress", "chest press"),
   ("legpress", "leg press"), ("deadlift", "deadlift"), ("squat", "squat"),
   ("lunge", "lunge")]

/-- Apply every correction: `s.replace(wrong, correct.replace(" ", ""))`
for each table entry, in order. -/
def applyCorrections (s : Chars) : Chars :=
  exerciseCorrections.foldl (fun t p => replaceAllC p.1.data (dropSpaces p.2.data) t) s

/-- The consonant-class table of the simple `soundex` helper. -/
def soundexMapping : List (String × Char) :=
  [("BFPV", '1'), ("CGJKQSXZ", '2'), ("DT", '3'),
   ("L", '4'), ("MN", '5'), ("R", '6')]

/-- Code of one (upper-cased) character, if it belongs to a group. -/
def soundexCode (c : Char) : Option Char :=
  (soundexMapping.find? (fun p => p.1.data.contains c)).map (fun p => p.2)

/-- One step of the soundex accumulation: append the code unless it
repeats the last accumulated code (a length-1 accumulator always takes
the append, as in the source). -/
def soundexStep (code : Chars) (c : Char) : Chars :=
  match soundexCode c with
  | none => code
  | some d =>
    if code.length = 1 || code.getLast? ≠ some d then code ++ [d] else code

/-- `soundex(s)`: first character, then consonant-class codes of the rest
with consecutive duplicates collapsed, padded with zeros to length 4. -/
def soundex (s : Chars) : Chars :=
  let u := s.map Char.toUpper
  let start : Chars := match u with | [] => [] | c :: _ => [c]
  ((u.drop 1).foldl soundexStep start ++ ['0', '0', '0']).take 4

/-- `calculate_similarity(str1, str2)` (workout_llm_helper.py:2289-2414),
with float literals read as exact rationals. -/
def calculate_similarity (str1 str2 : String) : ℚ :=
  let c1 := pyCleanC str1
  let c2 := pyCleanC str2
  if c1 = c2 then 1 else
  let n1 := dropSpaces c1
  let n2 := dropSpaces c2
  if n1 = n2 then 95/100 else
  if isInfC n1 n2 || isInfC n2 n1 then 85/100 else
  let ts1 := splitWs c1
  let ts2 := splitWs c2
  let tokenRes : Option ℚ :=
    if 1 < ts1.length ∧ 1 < ts2.length then
      let tsim : ℚ := (tokenMatches ts1 ts2 : ℚ) / (max ts1.length ts2.length : ℚ)
      if 6/10 < tsim then some (7/10 + tsim * (2/10)) else none
    else none
  match tokenRes with
  | some v => v
  | none =>
    let dist := levenshtein n1 n2
    let maxLen := max n1.length n2.length
    if maxLen = 0 then 0 else
    let editSim : ℚ := 1 - (dist : ℚ) / (maxLen : ℚ)
    let k1 := applyCorrections n1
    let k2 := applyCorrections n2
    if k1 = k2 then 9/10 else
    if isInfC k1 k2 || isInfC k2 k1 then 8/10 else
    if 3 < n1.length ∧ 3 < n2.length ∧ soundex n1 = soundex n2 then
      max (6/10) editSim
    else max editSim 0

/-! ### Data model -/

/-- Python reps values: an int or a string such as `"30 seconds"`. -/
inductive Reps where
  | num : Nat → Reps
  | str : String → Reps
deriving DecidableEq

/-- An exercise entry `{id, name, sets, reps, note}`; absent dictionary
keys are `none`. -/
structure Exercise where
  id : Option Nat
  name : String
  sets : Option Nat
  reps : Option Reps
  note : Option String
deriving DecidableEq

/-- A day `{title, muscle_groups, exercises}`. -/
structure Day where
  title : String
  muscle_groups : List String
  exercises : List Exercise
deriving DecidableEq

/-- The empty day dictionary `{}` (`days.get(d) or {}`). -/
def emptyDay : Day := ⟨"", [], []⟩

/-- A template `{name, goal, days, notes}`; `days` is an
insertion-ordered mapping like a Python dict. -/
structure Template where
  name : String
  goal : String
  days : List (String × Day)
  notes : List String
deriving DecidableEq

/-- One catalog row (`qr_code` exercise data, per the spec interface). -/
structure CatEntry where
  name : String
  muscle_group : String
  isCardio : Bool
  isBodyWeight : Bool
deriving DecidableEq

/-- The loaded catalog: `by_id` in stored order. -/
structure Catalog where
  by_id : List (Nat × CatEntry)
deriving DecidableEq

/-! ### Association-list (Python dict) operations -/

/-- Python `d.get(k)`. -/
def alGet {κ α : Type} [DecidableEq κ] : List (κ × α) → κ → Option α
  | [], _ => none
  | (k, v) :: t, key => if k = key then some v else alGet t key

/-- Python `d[k] = v`: replace in place, or append a new key at the end. -/
def alSet {κ α : Type} [DecidableEq κ] : List (κ × α) → κ → α → List (κ × α)
  | [], key, v => [(key, v)]
  | (k, w) :: t, key, v =>
    if k = key then (k, v) :: t else (k, w) :: alSet t key v

/-- Python `list(d.keys())`. -/
def keysOf {κ α : Type} (l : List (κ × α)) : List κ := l.map Prod.fst

/-- Python set equality of two key lists (`set(a) == set(b)`). -/
def listSetEq (l1 l2 : List String) : Bool :=
  l1.all (fun x => l2.contains x) && l2.all (fun x => l1.contains x)

/-! ### Python truthiness -/

/-- Truthiness of an optional int (`None` and `0` are falsy). -/
def truthyNat : Option Nat → Bool
  | none => false
  | some 0 => false
  | some _ => true

/-- Truthiness of an optional string (`None` and `""` are falsy). -/
def truthyStr : Option String → Bool
  | none => false
  | some s => s ≠ ""

/-- `ex.get("sets") or 3` style defaulting. -/
def setsOrDefault (d : Nat) : Option Nat → Option Nat
  | none => some d
  | some 0 => some d
  | some k => some k

/-- `ex.get("reps") or 10` style defaulting. -/
def repsOrDefault (d : Nat) : Option Reps → Option Reps
  | none => some (Reps.num d)
  | some (Reps.num 0) => some (Reps.num d)
  | some (Reps.str "") => some (Reps.num d)
  | some r => some r

/-! ### Catalog accessors -/

/-- `eid in cat["by_id"]`. -/
def catHasId (cat : Catalog) (k : Nat) : Bool := (alGet cat.by_id k).isSome

/-- `list(cat["by_id"].keys())`. -/
def catKeys (cat : Catalog) : List Nat := cat.by_id.map Prod.fst

/-- `cat["by_id"][k]["name"]` (default row for the impossible miss). -/
def catName (cat : Catalog) (k : Nat) : String :=
  ((alGet cat.by_id k).getD ⟨"", "", false, false⟩).name

/-- Modelled from the spec: the Exercise Catalog Accessor operation
`id_for_name(name) -> id|null` (its module `exercise_catalog_db` is not
in the repository): exact, case-insensitive name lookup in stored
catalog order. -/
def id_for_name (nm : String) (cat : Catalog) : Option Nat :=
  (cat.by_id.find? (fun p => lowerC p.2.name.data == lowerC nm.data)).map
    (fun p => p.1)

/-- Modelled from the spec: the Exercise Catalog Accessor operation
`pick_from_muscles(muscle_list, used_ids, n) -> list<id>` (its module
`exercise_catalog_db` is not in the repository): up to `n` catalog ids
whose muscle group appears in `muscle_list` (case-insensitive) and that
are not in `used_ids`, in stored catalog order. -/
def pick_from_muscles (muscles : List String) (cat : Catalog) (used : List Nat)
    (n : Nat) : List Nat :=
  ((cat.by_id.filter (fun p =>
      muscles.any (fun m => lowerC m.data == lowerC p.2.muscle_group.data) &&
      !(used.contains p.1))).map (fun p => p.1)).take n

/-! ### Catalog Enforcement Gate, static version
(_enforce_catalog_on_template_db, workout_llm_helper.py:1066-1106) -/

/-- The `elif nm: nid = id_for_name(nm, cat); if nid: ...` branch: a
truthy name, then a truthy resolved id. -/
def nameResolve (cat : Catalog) (nm : String) : Option Nat :=
  if nm ≠ "" then
    match id_for_name nm cat with
    | some n => if n = 0 then none else some n
    | none => none
  else none

/-- `chosen_id` after the id/name branches: the entry id when it is a
valid catalog key, else the name resolution. -/
def chosenC1 (cat : Catalog) (ex : Exercise) : Option Nat :=
  match ex.id with
  | some eid => if catHasId cat eid then some eid else nameResolve cat ex.name
  | none => nameResolve cat ex.name

/-- The `chosen_id` computation shared by both gates: the id/name
resolution if truthy, else the first `pick_from_muscles` pick (`used`
is the used-id set handed to the pick). -/
def resolveChosen (cat : Catalog) (muscles : List String) (used : List Nat)
    (ex : Exercise) : Option Nat :=
  if truthyNat (chosenC1 cat ex) then chosenC1 cat ex
  else
    match pick_from_muscles muscles cat used 1 with
    | [] => none
    | p :: _ => some p

/-- One exercise of the static gate loop: append the canonicalized
entry when `chosen_id` is truthy (no per-day duplicate check). -/
def staticStep (cat : Catalog) (muscles : List String)
    (st : List Nat × List Exercise) (ex : Exercise) : List Nat × List Exercise :=
  let c2 := resolveChosen cat muscles st.1 ex
  if truthyNat c2 then
    let k := c2.getD 0
    (st.1.insert k,
     st.2 ++ [{ id := some k, name := catName cat k, sets := ex.sets,
                reps := ex.reps, note := ex.note }])
  else st

/-- Static-gate handling of one day. -/
def enforceDayStatic (cat : Catalog) (day : Day) : Day :=
  { day with
    exercises := (day.exercises.foldl (staticStep cat day.muscle_groups) ([], [])).2 }

def DAYS6 : List String :=
  ["monday", "tuesday", "wednesday", "thursday", "friday", "saturday"]

/-- One day of the static gate outer loop:
`days[d] = normalize(days.get(d) or {})`. -/
def staticDayWrite (cat : Catalog) (ds : List (String × Day)) (d : String) :
    List (String × Day) :=
  alSet ds d (enforceDayStatic cat ((alGet ds d).getD emptyDay))

/-- `_enforce_catalog_on_template_db(tpl, db)`: canonicalize every
Monday-Saturday day (creating missing ones from the empty dict, as
`days.get(d) or {}` plus the write-back does). -/
def enforce_catalog_on_template_db (cat : Catalog) (tpl : Template) : Template :=
  { tpl with days := DAYS6.foldl (staticDayWrite cat) tpl.days }

/-! ### Catalog Enforcement Gate, dynamic version
(_enforce_catalog_on_template_db_dynamic, workout_llm_helper.py:1135-1245).
The `not cat or "by_id" not in cat` guard is vacuous here: a loaded
`Catalog` always carries `by_id`. -/

/-- One existing exercise of the dynamic gate loop: state is
`(global_used, day_used, normalized_list)`; the entry is kept only when
`chosen_id` is truthy and not already in `day_used`, with
`sets or 3` / `reps or 10` defaulting. -/
def dynStep (cat : Catalog) (muscles : List String)
    (st : List Nat × List Nat × List Exercise) (ex : Exercise) :
    List Nat × List Nat × List Exercise :=
  let c2 := resolveChosen cat muscles (st.1 ++ st.2.1) ex
  if truthyNat c2 then
    let k := c2.getD 0
    if k ∈ st.2.1 then st
    else
      (st.1.insert k, (st.2.1).insert k,
       st.2.2 ++ [{ id := some k, name := catName cat k,
                    sets := setsOrDefault 3 ex.sets,
                    reps := repsOrDefault 10 ex.reps, note := ex.note }])
  else st

/-- `available_ids[0]`: the first catalog id not in `day_used`. -/
def dynFallbackId (cat : Catalog) (du : List Nat) : Option Nat :=
  (cat.by_id.map Prod.fst).find? (fun i => !(du.contains i))

/-- The id appended by one top-up iteration: a valid
`pick_from_muscles(muscles or ["full body"], ...)` pick, else the first
unused catalog id; `none` means the loop breaks. -/
def dynTopId (cat : Catalog) (muscles : List String) (g du : List Nat) : Option Nat :=
  match pick_from_muscles (if muscles.isEmpty then ["full body"] else muscles)
      cat (g ++ du) 1 with
  | p :: _ => if catHasId cat p then some p else dynFallbackId cat du
  | [] => dynFallbackId cat du

/-- The `while len(normalized_list) < 6 and attempt_count < max_attempts`
top-up loop; `fuel` is the remaining attempt budget (20 at entry). -/
def dynTopUp (cat : Catalog) (muscles : List String) :
    Nat → List Nat → List Nat → List Exercise →
      List Nat × List Nat × List Exercise
  | 0, g, du, out => (g, du, out)
  | fuel + 1, g, du, out =>
    if out.length < 6 then
      match dynTopId cat muscles g du with
      | some k =>
        dynTopUp cat muscles fuel (g.insert k) (du.insert k)
          (out ++ [⟨some k, catName cat k, some 3, some (Reps.num 10), none⟩])
      | none => (g, du, out)
    else (g, du, out)

/-- The three hard-coded entries appended when a day still has fewer
than 3 exercises after the top-up loop. -/
def basicExercises : List Exercise :=
  [⟨some 9999, "Push-ups", some 3, some (Reps.num 10), none⟩,
   ⟨some 9998, "Squats", some 3, some (Reps.num 12), none⟩,
   ⟨some 9997, "Plank", some 3, some (Reps.str "30 seconds"), none⟩]

/-- `if len < 3: append basics while len < 6`. -/
def appendBasics (out : List Exercise) : List Exercise :=
  if out.length < 3 then
    basicExercises.foldl (fun l b => if l.length < 6 then l ++ [b] else l) out
  else out

/-- Dynamic-gate handling of one day, threading `global_used` through:
existing pass, top-up loop, basic fallback, 8-exercise truncation. -/
def dynProcessDay (cat : Catalog) (g : List Nat) (day : Day) : Day × List Nat :=
  let muscles := day.muscle_groups
  let st1 := day.exercises.foldl (dynStep cat muscles) (g, [], [])
  let st2 := dynTopUp cat muscles 20 st1.1 st1.2.1 st1.2.2
  let out3 := appendBasics st2.2.2
  let out4 := if out3.length > 8 then out3.take 8 else out3
  ({ day with exercises := out4 }, st2.1)

/-- `name.lower()` of a template day name. -/
def dayKeyOf (nm : String) : String := ⟨lowerC nm.data⟩

/-- One template name of the dynamic gate outer loop (days missing from
the template are skipped). -/
def dynDayWrite (cat : Catalog) (st : List (String × Day) × List Nat)
    (nm : String) : List (String × Day) × List Nat :=
  match alGet st.1 (dayKeyOf nm) with
  | none => st
  | some day0 =>
    let pr := dynProcessDay cat st.2 day0
    (alSet st.1 (dayKeyOf nm) pr.1, pr.2)

/-- `_enforce_catalog_on_template_db_dynamic(tpl, db, template_names)`. -/
def enforce_catalog_on_template_db_dynamic (cat : Catalog) (tpl : Template)
    (template_names : List String) : Template :=
  { tpl with
    days := (template_names.foldl (dynDayWrite cat) (tpl.days, [])).1 }

/-- A two-row catalog whose first id is the Python-falsy `0`. -/
def catC2 : Catalog :=
  ⟨[(0, ⟨"ZeroEx", "full body", false, false⟩),
    (5, ⟨"FiveEx", "full body", false, false⟩)]⟩

/-- A one-day template aimed at the `full body` group. -/
def tplC2 : Template :=
  ⟨"T", "muscle_gain", [("monday", ⟨"Monday", ["full body"], []⟩)], []⟩

/-- A six-row catalog with distinct ids. -/
def cat6 : Catalog :=
  ⟨[(1, ⟨"E1", "full body", false, false⟩), (2, ⟨"E2", "full body", false, false⟩),
    (3, ⟨"E3", "full body", false, false⟩), (4, ⟨"E4", "full body", false, false⟩),
    (5, ⟨"E5", "full body", false, false⟩), (6, ⟨"E6", "full body", false, false⟩)]⟩

/-- A template with one empty monday and no muscle focus. -/
def tplW : Template :=
  ⟨"T", "muscle_gain", [("monday", ⟨"Monday", [], []⟩)], []⟩

/-- The ids present in an exercise list, in order. -/
def exIds (l : List Exercise) : List Nat := l.filterMap (fun ex => ex.id)

/-- The ids present in one day (`ex.get("id")` per entry). -/
def dayIds (d : Day) : List Nat := exIds d.exercises

/-! ### handle_remove_exercise (workout_llm_helper.py:2989-3158) -/

/-- `re.findall(r'[a-zA-Z]+', s)`: maximal alphabetic runs. -/
def alphaRunsAux : Chars → Chars → List Chars
  | [], acc => if acc = [] then [] else [acc.reverse]
  | c :: rest, acc =>
    if c.isAlpha then alphaRunsAux rest (c :: acc)
    else if acc = [] then alphaRunsAux rest []
    else acc.reverse :: alphaRunsAux rest []

def alphaRuns (l : Chars) : List Chars := alphaRunsAux l []

/-- `' '.join(ws)`. -/
def joinSpace : List Chars → Chars
  | [] => []
  | [w] => w
  | w :: rest => w ++ ' ' :: joinSpace rest

/-- The remove handlers own correction table (insertion order). -/
def removeCorrections : List (String × String) :=
  [("dumbell", "dumbbell"), ("dumbel", "dumbbell"),
   ("benchpress", "bench press"), ("shoulderpress", "shoulder press"),
   ("chestpress", "chest press"), ("legpress", "leg press"),
   ("pushup", "push up"), ("pullup", "pull up"), ("situp", "sit up"),
   ("chinup", "chin up")]

/-- The `skip_words` set. -/
def removeSkipWords : List String :=
  ["remove", "delete", "take", "out", "from", "monday", "tuesday",
   "wednesday", "thursday", "friday", "saturday", "sunday", "day",
   "exercise", "workout", "action", "specified", "exercises",
   "constraints", "maximum", "per", "keep", "existing", "structure",
   "unless", "specifically", "asked", "to", "change", "user", "request"]

/-- The `day_keywords` list of the remove handler. -/
def removeDayKeywords : List String :=
  ["monday", "tuesday", "wednesday", "thursday", "friday", "saturday",
   "sunday", "day1", "day2", "day3", "day4", "day5", "day6", "day7"]

/-- The `exercise_keywords` list. -/
def removeExerciseKeywords : List String :=
  ["press", "curl", "row", "squat", "lunge", "raise", "extension", "fly",
   "dip", "push", "pull"]

/-- Candidate phrases of one word-combo length: all contiguous runs of
`L` filtered words whose joined length exceeds 3 (Python `range` is
empty when fewer than `L` words exist). -/
def phrasesOfLen (filtered : List Chars) (L : Nat) : List Chars :=
  if filtered.length < L then []
  else
    ((List.range (filtered.length - L + 1)).map
      (fun i => joinSpace ((filtered.drop i).take L))).filter
      (fun p => 3 < p.length)

/-- The extra keyword-anchored phrases: for each exercise keyword
occurring as a filtered word, phrases ending at that word starting up
to 3 words earlier, deduplicated against the accumulator. -/
def keywordPhrases (filtered : List Chars) (acc0 : List Chars) : List Chars :=
  removeExerciseKeywords.foldl (fun acc1 kw =>
    if filtered.contains kw.data then
      (List.range filtered.length).foldl (fun acc2 i =>
        if filtered.getD i [] == kw.data then
          (List.range' (i - 3) (i - (i - 3))).foldl (fun acc3 start =>
            let phrase := joinSpace ((filtered.drop start).take (i + 1 - start))
            if 3 < phrase.length ∧ ¬ acc3.contains phrase then acc3 ++ [phrase]
            else acc3) acc2
        else acc2) acc1
    else acc1) acc0

/-- The full candidate-phrase extraction: corrections, alphabetic words,
stop-word and length filtering, longest-first runs, keyword phrases. -/
def removePhrases (il : Chars) : List Chars :=
  let processed := removeCorrections.foldl
    (fun t p => replaceAllC p.1.data p.2.data t) il
  let words := alphaRuns processed
  let filtered := words.filter
    (fun w => ¬ removeSkipWords.contains (⟨w⟩ : String) ∧ 2 < w.length)
  keywordPhrases filtered
    (([4, 3, 2, 1].foldl (fun acc L => acc ++ phrasesOfLen filtered L) []))

/-- The filtered word list of the remove handler (shared with
`removePhrases`). -/
def removeFiltered (il : Chars) : List Chars :=
  let processed := removeCorrections.foldl
    (fun t p => replaceAllC p.1.data p.2.data t) il
  (alphaRuns processed).filter
    (fun w => ¬ removeSkipWords.contains (⟨w⟩ : String) ∧ 2 < w.length)

/-- One scored `(day, exercise, phrase)` candidate. -/
structure RemoveCand where
  day : String
  index : Nat
  ex : Exercise
  phrase : Chars
  similarity : ℚ
deriving DecidableEq

/-- `collect_exercise_candidates`: every phrase against every exercise
of one day, kept above the 0.3 collection threshold. -/
def collectCands (dayKey : String) (exs : List Exercise) (phrases : List Chars) :
    List RemoveCand :=
  (phrases.map (fun ph =>
    exs.enum.filterMap (fun p =>
      let sim := calculate_similarity ⟨ph⟩ ⟨lowerC p.2.name.data⟩
      if 3/10 < sim then some ⟨dayKey, p.1, p.2, ph, sim⟩ else none))).flatten

/-- `candidate_score`: similarity plus a phrase-length bonus, with a
penalty for weak single-word matches. -/
def candidateScore (c : RemoveCand) : ℚ :=
  let pl := (splitWs c.phrase).length
  if pl = 1 ∧ c.similarity < 8/10 then c.similarity - 2/10
  else c.similarity + (pl : ℚ) * (1/10)

/-- Stable insertion for a descending sort: x goes before the first
strictly smaller-scored element, like Python stable `sort(reverse=True)`
keeps earlier equal-scored elements earlier. -/
def insertDescBy (score : RemoveCand → ℚ) (x : RemoveCand) :
    List RemoveCand → List RemoveCand
  | [] => [x]
  | y :: ys =>
    if score y < score x then x :: y :: ys else y :: insertDescBy score x ys

def sortDescBy (score : RemoveCand → ℚ) : List RemoveCand → List RemoveCand
  | [] => []
  | x :: xs => insertDescBy score x (sortDescBy score xs)

/-- The day-keyword scan: the loop keeps the last assigned day key and
stops early only when it is truthy (a non-empty string). -/
def findTargetDayAux (days : List (String × Day)) (il : Chars) :
    List String → Option String → Option String
  | [], acc => acc
  | day :: rest, acc =>
    if isInfC day.data il then
      let acc2 := match days.find? (fun kd =>
          isInfC day.data (lowerC kd.1.data) ||
          isInfC (lowerC kd.1.data) day.data) with
        | some kd => some kd.1
        | none => acc
      if truthyStr acc2 then acc2 else findTargetDayAux days il rest acc2
    else findTargetDayAux days il rest acc

/-- All scored candidates for a template and lowered instruction: the
mentioned day only, else every day. -/
def removeAllCandidates (template : Template) (il : Chars) : List RemoveCand :=
  let phrases := removePhrases il
  let target := findTargetDayAux template.days il removeDayKeywords none
  if truthyStr target then
    collectCands (target.getD "")
      ((alGet template.days (target.getD "")).getD emptyDay).exercises phrases
  else
    template.days.foldl (fun acc kd => acc ++ collectCands kd.1 kd.2.exercises phrases) []

/-- `handle_remove_exercise(template, instruction, instruction_lower)`:
`(None, None)` when no meaningful phrase, no candidate, or the best
candidate scores below 0.5; otherwise the template with every entry
equal to the best candidates exercise removed from its day (the
summary quotes of the source are dropped from the message text). -/
def handle_remove_exercise (template : Template) (instruction : String)
    (instruction_lower : String) : Option Template × Option String :=
  let il := instruction_lower.data
  if removePhrases il = [] then (none, none)
  else
    let cands := removeAllCandidates template il
    match sortDescBy candidateScore cands with
    | [] => (none, none)
    | best :: _ =>
      if best.similarity < 1/2 then (none, none)
      else
        let dday := (alGet template.days best.day).getD emptyDay
        let newExs := dday.exercises.filter (fun ex => ex ≠ best.ex)
        (some { template with
                days := alSet template.days best.day { dday with exercises := newExs } },
         some ("Removed " ++ best.ex.name ++ " from " ++ best.day))

/-- A monday template used by the remove-handler theorems. -/
def tplRem : Template :=
  ⟨"T", "muscle_gain",
   [("monday", ⟨"Monday", [],
     [⟨some 1, "Bench Press", some 3, some (Reps.num 10), none⟩,
      ⟨some 2, "Squats", some 3, some (Reps.num 10), none⟩]⟩)], []⟩

/-! ### handle_specific_exercise_addition
(workout_llm_helper.py:2415-2594).  The `re` patterns are embedded as
direct scanners over the lowered instruction; each carries the original
pattern in its comment. -/

/-- `\w`: ASCII word characters. -/
def isWordChar (c : Char) : Bool := c.isAlphanum || c == '_'

/-- Scan every position for `add` followed by whitespace, then hand the
remainder (after the whitespace run) to the pattern body; leftmost
success wins. -/
def scanAdd (body : Chars → Option (Chars × Chars)) : Chars → Option (Chars × Chars)
  | [] => none
  | il@(_ :: rest) =>
    (if isPrefC "add".data il then
      let s1 := il.drop 3
      if s1.takeWhile Char.isWhitespace = [] then none
      else body (s1.dropWhile Char.isWhitespace)
    else none).orElse (fun _ => scanAdd body rest)

/-- Lazy negated-class group: shortest non-empty prefix avoiding `bad`,
followed by whitespace, the separator word, and a parsable group 2. -/
def tryG1 (bad : List Char) (sep : Chars) (parseG2 : Chars → Option Chars)
    (s2 : Chars) : Option (Chars × Chars) :=
  (List.range' 1 (s2.takeWhile (fun c => ¬ bad.contains c)).length).findSome?
    (fun k =>
      let g1 := s2.take k
      let rest := s2.drop k
      if rest.takeWhile Char.isWhitespace = [] then none
      else
        let r2 := rest.dropWhile Char.isWhitespace
        if isPrefC sep r2 then
          (parseG2 (r2.drop sep.length)).map (fun g2 => (g1, g2))
        else none)

/-- `\s+(\w+)` after the separator. -/
def parseG2Word (r : Chars) : Option Chars :=
  if r.takeWhile Char.isWhitespace = [] then none
  else
    let w := (r.dropWhile Char.isWhitespace).takeWhile isWordChar
    if w = [] then none else some w

/-- `(all\s+days?|every\s+days?)`, capturing the matched text. -/
def parseAllEvery (r2 : Chars) : Option Chars :=
  (["all", "every"]).findSome? (fun w =>
    if isPrefC w.data r2 then
      let r3 := r2.drop w.length
      let ws2 := r3.takeWhile Char.isWhitespace
      if ws2 = [] then none
      else
        let r4 := r3.dropWhile Char.isWhitespace
        if isPrefC "days".data r4 then some (w.data ++ ws2 ++ "days".data)
        else if isPrefC "day".data r4 then some (w.data ++ ws2 ++ "day".data)
        else none
    else none)

/-- `\s+` then the all/every-days alternation. -/
def parseG2AllDays (r : Chars) : Option Chars :=
  if r.takeWhile Char.isWhitespace = [] then none
  else parseAllEvery (r.dropWhile Char.isWhitespace)

/-- `(\w+day|\w+)`: the longest word prefix ending in `day` (with at
least one character before it), else the whole word run. -/
def parseG2D (s : Chars) : Option Chars :=
  let w := s.takeWhile isWordChar
  if w = [] then none
  else
    match (List.range w.length).reverse.findSome? (fun m =>
      if 1 ≤ m ∧ isPrefC "day".data (w.drop m) then some (w.take (m + 3))
      else none) with
    | some p => some p
    | none => some w

/-- `add\s+(\w+(?:\s+\w+)?)\s+(\w+day|\w+)` body: group 1 greedily
takes two words when a third remains, else one. -/
def bodyD (s2 : Chars) : Option (Chars × Chars) :=
  let w1 := s2.takeWhile isWordChar
  if w1 = [] then none
  else
    let rest1 := s2.drop w1.length
    let ws1 := rest1.takeWhile Char.isWhitespace
    if ws1 = [] then none
    else
      let r2 := rest1.dropWhile Char.isWhitespace
      (let w2 := r2.takeWhile isWordChar
       if w2 = [] then none
       else
         let rest2 := r2.drop w2.length
         if rest2.takeWhile Char.isWhitespace = [] then none
         else
           (parseG2D (rest2.dropWhile Char.isWhitespace)).map
             (fun g2 => (w1 ++ ws1 ++ w2, g2))).orElse
        (fun _ => (parseG2D r2).map (fun g2 => (w1, g2)))

/-- `add\s+([^in]+?)\s+in\s+(all\s+days?|every\s+days?)`. -/
def addPatternA (il : Chars) : Option (Chars × Chars) :=
  scanAdd (tryG1 ['i', 'n'] "in".data parseG2AllDays) il

/-- `add\s+([^on]+?)\s+on\s+(\w+)`. -/
def addPatternB (il : Chars) : Option (Chars × Chars) :=
  scanAdd (tryG1 ['o', 'n'] "on".data parseG2Word) il

/-- `add\s+([^to]+?)\s+to\s+(\w+)`. -/
def addPatternC (il : Chars) : Option (Chars × Chars) :=
  scanAdd (tryG1 ['t', 'o'] "to".data parseG2Word) il

/-- `add\s+(\w+(?:\s+\w+)?)\s+(\w+day|\w+)`. -/
def addPatternD (il : Chars) : Option (Chars × Chars) :=
  scanAdd bodyD il

def addPatterns : List (Chars → Option (Chars × Chars)) :=
  [addPatternA, addPatternB, addPatternC, addPatternD]

/-- The fuzzy database scan: best strictly-improving score above 0.5,
first maximum kept. -/
def fuzzyBest (cat : Catalog) (pe : Chars) : Option (Nat × String) :=
  (cat.by_id.foldl (fun acc p =>
    let score := calculate_similarity ⟨pe⟩ ⟨lowerC p.2.name.data⟩
    if acc.2 < score ∧ 1/2 < score then (some (p.1, p.2.name), score) else acc)
    ((none : Option (Nat × String)), (0 : ℚ))).1

/-- The add handlers mutable variables `(exercise_name, target_day_key,
exercise_id)`. -/
structure AddState where
  exName : Option String
  target : Option String
  exId : Option Nat
deriving DecidableEq

/-- The `'all days'` membership list checked on the day group. -/
def allDaysLits : List String := ["all days", "every days", "all day", "every day"]

/-- The all-days early-return commit: append the exercise to every day
that does not already hold its id and has room. -/
def allDaysCommit (days : List (String × Day)) (eid : Nat) (en : String) :
    List (String × Day) :=
  days.map (fun kd =>
    if ¬ (kd.2.exercises.any (fun ex => ex.id == some eid)) ∧
        kd.2.exercises.length < 8 then
      (kd.1, { kd.2 with
        exercises := kd.2.exercises ++
          [⟨some eid, en, some 3, some (Reps.num 10), none⟩] })
    else kd)

/-- The specific-day match of the pattern loop:
`pd.lower() in dk.lower() or dk.lower() in pd.lower() or equal`. -/
def addDayMatch (pd : Chars) (kd : String × Day) : Bool :=
  isInfC (lowerC pd) (lowerC kd.1.data) || isInfC (lowerC kd.1.data) (lowerC pd) ||
  lowerC pd == lowerC kd.1.data

/-- What one matching pattern does to the loop: the all-days early
return, the both-found break, or continue with an updated state. -/
inductive AddPatOutcome where
  | commit (eid : Nat) (en : String)
  | halt (st : AddState)
  | next (st : AddState)
deriving DecidableEq

/-- One matching pattern of the add loop: re-resolve the exercise
(exact name, then fuzzy), then on a truthy id set the canonical name,
check the all-days literals, and resolve the day; break once both id
and day are truthy. -/
def addPatStep (cat : Catalog) (days : List (String × Day)) (st : AddState)
    (pe pd : Chars) : AddPatOutcome :=
  let eid0 := id_for_name ⟨pe⟩ cat
  let upd : Option Nat × Option String :=
    if truthyNat eid0 then (eid0, st.exName)
    else match fuzzyBest cat pe with
      | some f => (some f.1, some f.2)
      | none => (eid0, st.exName)
  if truthyNat upd.1 then
    let en2 := some (catName cat (upd.1.getD 0))
    if allDaysLits.contains (⟨lowerC pd⟩ : String) then
      .commit (upd.1.getD 0) (catName cat (upd.1.getD 0))
    else
      let tgt2 := match days.find? (addDayMatch pd) with
        | some kd => some kd.1
        | none => st.target
      if truthyNat upd.1 ∧ truthyStr tgt2 then .halt ⟨en2, tgt2, upd.1⟩
      else .next ⟨en2, tgt2, upd.1⟩
  else .next ⟨upd.2, st.target, upd.1⟩

/-- The pattern loop of the add handler. -/
def addPhase1Aux (cat : Catalog) (days : List (String × Day)) (il : Chars) :
    List (Chars → Option (Chars × Chars)) → AddState →
      Sum (List (String × Day) × String) AddState
  | [], st => .inr st
  | pat :: rest, st =>
    match pat il with
    | none => addPhase1Aux cat days il rest st
    | some g =>
      match addPatStep cat days st g.1 g.2 with
      | .commit eid en => .inl (allDaysCommit days eid en, en)
      | .halt st2 => .inr st2
      | .next st2 => addPhase1Aux cat days il rest st2

/-- Does `w1 (\s*) w2 ...` match at this position. -/
def wordsOptWs : List Chars → Chars → Bool
  | [], _ => true
  | [w], s => isPrefC w s
  | w :: ws, s =>
    isPrefC w s && wordsOptWs ws ((s.drop w.length).dropWhile Char.isWhitespace)

/-- `re.search` of a `w1\s*w2` style pattern. -/
def searchWords (ws : List Chars) : Chars → Bool
  | [] => wordsOptWs ws []
  | s@(_ :: rest) => wordsOptWs ws s || searchWords ws rest

/-- The alternative `exercise_patterns` table (pattern words,
suggested catalog name). -/
def addExercisePatterns : List (List String × String) :=
  [(["barbell", "curl"], "Barbell Curl"), (["box", "jump"], "Box Jumps"),
   (["push", "up"], "Plyometric Pushups"), (["squat"], "Dumbell Squats"),
   (["burpee"], "Burpees"), (["plank"], "Plank Jacks"),
   (["mountain", "climb"], "Mountain Climbers"),
   (["russian", "twist"], "Russian Twists"), (["high", "knee"], "High Knees")]

/-- The alternative-pattern loop: overwrite the id on every textual
match, break (with the canonical name) at the first truthy id. -/
def exPatsAux (cat : Catalog) (il : Chars) :
    List (List String × String) → Option Nat × Option String →
      Option Nat × Option String
  | [], st => st
  | (pat, sugg) :: rest, st =>
    if searchWords (pat.map String.data) il then
      let eid := id_for_name sugg cat
      if truthyNat eid then (eid, some (catName cat (eid.getD 0)))
      else exPatsAux cat il rest (eid, st.2)
    else exPatsAux cat il rest st

/-- The plain weekday keywords of the phase-2 day scan. -/
def sevenDayKeywords : List String :=
  ["monday", "tuesday", "wednesday", "thursday", "friday", "saturday", "sunday"]

/-- Phase 2 of the add handler: when no exercise name was found, try
the alternative patterns, then (when a name was found and no day yet)
the weekday-keyword day scan. -/
def addPhase2 (cat : Catalog) (days : List (String × Day)) (il : Chars)
    (st : AddState) : AddState :=
  if ¬ truthyStr st.exName then
    let r := exPatsAux cat il addExercisePatterns (st.exId, st.exName)
    let tgt2 := if truthyStr r.2 ∧ ¬ truthyStr st.target then
        findTargetDayAux days il sevenDayKeywords st.target
      else st.target
    ⟨r.2, tgt2, r.1⟩
  else st

/-- The resolution state the validation block sees: either the all-days
early return (left) or the final variable values (right). -/
def addResolve (cat : Catalog) (days : List (String × Day)) (il : Chars) :
    Sum (List (String × Day) × String) AddState :=
  match addPhase1Aux cat days il addPatterns ⟨none, none, none⟩ with
  | .inl x => .inl x
  | .inr st0 => .inr (addPhase2 cat days il st0)

def joinComma : List String → String
  | [] => ""
  | [s] => s
  | s :: rest => s ++ ", " ++ joinComma rest

/-- Python `str.title()`. -/
def titleCaseAux : Chars → Bool → Chars
  | [], _ => []
  | c :: rest, prevAlpha =>
    (if prevAlpha then c.toLower else c.toUpper) :: titleCaseAux rest c.isAlpha

def titleCase (s : String) : String := ⟨titleCaseAux s.data false⟩

/-- `handle_specific_exercise_addition(template, instruction, db)`: the
pattern resolution followed by the validation chain; every reject path
returns the input template (the summary quotes of the source are
dropped from the message text, and the database-unavailable path is
outside this model). -/
def handle_specific_exercise_addition (template : Template)
    (instruction : String) (cat : Catalog) : Template × String :=
  let il := lowerC instruction.data
  match addResolve cat template.days il with
  | .inl x => ({ template with days := x.1 }, "Added " ++ x.2 ++ " to all days")
  | .inr st =>
    if ¬ truthyStr st.target then
      (template, "Could not identify which day to add the exercise to. Available days: " ++
        joinComma (keysOf template.days) ++
        ". Please specify clearly (e.g., add barbell curl on monday).")
    else if ¬ truthyStr st.exName ∨ ¬ truthyNat st.exId then
      (template, "Could not find exercise " ++ instruction ++
        " in database. Please check the exercise name. Try: Barbell Curl, Box Jumps, Burpees, Mountain Climbers, etc.")
    else if ¬ (alGet template.days (st.target.getD "")).isSome then
      (template, "Day " ++ st.target.getD "" ++
        " not found in template. Available days: " ++ joinComma (keysOf template.days))
    else
      let dday := (alGet template.days (st.target.getD "")).getD emptyDay
      if 8 ≤ dday.exercises.length then
        (template, "Day " ++ st.target.getD "" ++ " already has " ++
          toString dday.exercises.length ++
          " exercises (maximum is 8). Please remove an exercise first or choose a different day.")
      else if dday.exercises.any (fun ex => ex.id == st.exId) then
        (template, "Exercise " ++ st.exName.getD "" ++ " is already in " ++
          st.target.getD "" ++ ".")
      else
        ({ template with
           days := alSet template.days (st.target.getD "")
             { dday with exercises := dday.exercises ++
               [⟨st.exId, st.exName.getD "", some 3, some (Reps.num 10), none⟩] } },
         "Added " ++ st.exName.getD "" ++ " to " ++ titleCase (st.target.getD "") ++
           " (" ++ toString (dday.exercises.length + 1) ++ " exercises total).")

/-! ### SmartWorkoutEditor.apply_title_change
(workout_llm_helper.py:639-688) -/

/-- Python `s.isdigit()` (ASCII digits, non-empty). -/
def pyIsDigit (s : String) : Bool := s ≠ "" && s.data.all Char.isDigit

def digitsToNatAux : Chars → Nat → Nat
  | [], acc => acc
  | c :: rest, acc => digitsToNatAux rest (acc * 10 + (c.toNat - 48))

/-- Python `int(s)` on a digit string. -/
def digitsToNat (l : Chars) : Nat := digitsToNatAux l 0

/-- `apply_title_change(template, target_day, new_title)`: match a day
by 1-based number or two-way substring, update only its title under the
same key; otherwise return the template with a not-found message. -/
def apply_title_change (template : Template) (target_day new_title : String) :
    Template × String :=
  let days := template.days
  let matching : Option String :=
    if pyIsDigit target_day then
      let n := digitsToNat target_day.data
      if 1 ≤ n ∧ n ≤ days.length then (days.get? (n - 1)).map Prod.fst else none
    else
      (days.find? (fun kd =>
        isInfC (lowerC target_day.data) (lowerC kd.1.data) ||
        isInfC (lowerC kd.1.data) (lowerC target_day.data))).map Prod.fst
  if truthyStr matching ∧ (alGet days (matching.getD "")).isSome then
    let mk2 := matching.getD ""
    let dd := (alGet days mk2).getD emptyDay
    ({ template with days := alSet days mk2 { dd with title := new_title } },
     "Changed day from " ++ dd.title ++ " to " ++ new_title)
  else (template, "Could not find day " ++ target_day ++ " in template")

/-! ### SmartWorkoutEditor.handle_bulk_muscle_change
(workout_llm_helper.py:696-843) -/

/-- The `muscle_mapping` table. -/
def bulkMuscleMapping : List (String × List String) :=
  [("legs", ["lower body", "legs", "quadriceps", "hamstrings", "glutes", "calves"]),
   ("upper", ["upper body", "chest", "back", "shoulders", "arms"]),
   ("core", ["core", "abs", "abdominal"]),
   ("chest", ["chest", "pectorals"]),
   ("back", ["back", "lats", "rhomboids"]),
   ("biceps", ["biceps", "arms"]),
   ("triceps", ["triceps", "arms"]),
   ("shoulders", ["shoulders", "deltoids"]),
   ("cardio", ["cardio", "aerobic"])]

/-- Inner id loop of the first replace pass: take valid picks unused
globally and in the day, until 6 entries; state is
`(new_exercises, day_used, global_used)`. -/
def bulkInner1 (cat : Catalog) :
    List Nat → List Exercise × List Nat × List Nat →
      List Exercise × List Nat × List Nat
  | [], st => st
  | eid :: rest, (new, du, g) =>
    if 6 ≤ new.length then (new, du, g)
    else if catHasId cat eid ∧ eid ∉ g ∧ eid ∉ du then
      bulkInner1 cat rest
        (new ++ [⟨some eid, catName cat eid, some 3, some (Reps.num 10), none⟩],
         du.insert eid, g.insert eid)
    else bulkInner1 cat rest (new, du, g)

/-- Outer muscle-target loop of the first replace pass (3 picks per
target, excluding global and day used ids). -/
def bulkOuter1 (cat : Catalog) :
    List String → List Exercise × List Nat × List Nat →
      List Exercise × List Nat × List Nat
  | [], st => st
  | mt :: rest, (new, du, g) =>
    if 6 ≤ new.length then (new, du, g)
    else bulkOuter1 cat rest
      (bulkInner1 cat (pick_from_muscles [mt] cat (g ++ du) 3) (new, du, g))

/-- Inner id loop of the relaxed second pass (no global restriction,
day set only, and no global update). -/
def bulkInner2 (cat : Catalog) :
    List Nat → List Exercise × List Nat → List Exercise × List Nat
  | [], st => st
  | eid :: rest, (new, du) =>
    if 6 ≤ new.length then (new, du)
    else if catHasId cat eid ∧ eid ∉ du then
      bulkInner2 cat rest
        (new ++ [⟨some eid, catName cat eid, some 3, some (Reps.num 10), none⟩],
         du.insert eid)
    else bulkInner2 cat rest (new, du)

def bulkOuter2 (cat : Catalog) :
    List String → List Exercise × List Nat → List Exercise × List Nat
  | [], st => st
  | mt :: rest, (new, du) =>
    if 6 ≤ new.length then (new, du)
    else bulkOuter2 cat rest
      (bulkInner2 cat (pick_from_muscles [mt] cat du 5) (new, du))

/-- The replace operation on one day: fresh exercise list from the
mapped muscle targets, relaxed retry when fewer than 2 were found, and
the days muscle groups set to the targets. -/
def bulkReplaceDay (cat : Catalog) (targets : List String) (g : List Nat)
    (day : Day) : Day × List Nat :=
  let r1 := bulkOuter1 cat targets ([], [], g)
  let new2 := if r1.1.length < 2 then (bulkOuter2 cat targets (r1.1, r1.2.1)).1
    else r1.1
  ({ day with exercises := new2, muscle_groups := targets }, r1.2.2)

/-- First truthy valid pick across the muscle targets for the add
operation. -/
def bulkAddFind (cat : Catalog) (targets : List String) (used : List Nat) :
    Option Nat :=
  targets.findSome? (fun mt =>
    match pick_from_muscles [mt] cat used 1 with
    | eid :: _ => if catHasId cat eid then some eid else none
    | [] => none)

/-- A Python `list(set(a) | set(b))`, modelled as an order-preserving
deduplicating union. -/
def pyUnion (a b : List String) : List String := (a ++ b).eraseDups

/-- The add operation on one day (the caller has already checked the
8-exercise room): append the first pick from the mapped targets,
merging the target groups into the days muscle groups. -/
def bulkAddDay (cat : Catalog) (targets : List String) (day : Day) : Day :=
  let used := (day.exercises.filterMap (fun ex => ex.id)).filter (fun k => k ≠ 0)
  match bulkAddFind cat targets used with
  | some eid =>
    { day with
      exercises := day.exercises ++
        [⟨some eid, catName cat eid, some 3, some (Reps.num 10), none⟩],
      muscle_groups := pyUnion day.muscle_groups targets }
  | none => day

/-- One day of the bulk loop; state is `(days, global_used,
modified_days)`. -/
def bulkDayStep (cat : Catalog) (muscle_targets : List String)
    (operation : String) (st : List (String × Day) × List Nat × List String)
    (dk : String) : List (String × Day) × List Nat × List String :=
  match alGet st.1 dk with
  | none => st
  | some dd =>
    if operation = "replace" then
      let pr := bulkReplaceDay cat muscle_targets st.2.1 dd
      (alSet st.1 dk pr.1, pr.2, st.2.2 ++ [titleCase dk])
    else if operation = "add" then
      if 8 ≤ dd.exercises.length then st
      else (alSet st.1 dk (bulkAddDay cat muscle_targets dd), st.2.1,
            st.2.2 ++ [titleCase dk])
    else (alSet st.1 dk dd, st.2.1, st.2.2 ++ [titleCase dk])

/-- `handle_bulk_muscle_change(template, muscle_group, operation,
target_days, specific_count, db)`; `cat?` is `None` for a missing
database connection. -/
def handle_bulk_muscle_change (template : Template)
    (muscle_group operation target_days : String) (specific_count : Option Nat)
    (cat? : Option Catalog) : Template × String :=
  match cat? with
  | none => (template, "Database connection required for bulk operations")
  | some cat =>
    let day_keys := keysOf template.days
    let target_day_keys : List String :=
      if target_days = "all" then day_keys
      else if target_days = "specific_count" ∧ truthyNat specific_count then
        day_keys.take (min (specific_count.getD 0) day_keys.length)
      else []
    if target_day_keys = [] then (template, "No valid days found to modify")
    else
      let muscle_targets :=
        ((bulkMuscleMapping.find? (fun p => p.1 = muscle_group)).map
          Prod.snd).getD [muscle_group]
      let res := target_day_keys.foldl
        (bulkDayStep cat muscle_targets operation) (template.days, [], [])
      ({ template with days := res.1 },
       if operation = "replace" then
         "Changed " ++ toString res.2.2.length ++ " days to focus on " ++
           muscle_group ++ " exercises: " ++ joinComma res.2.2
       else
         "Added " ++ muscle_group ++ " exercises to " ++
           toString res.2.2.length ++ " days: " ++ joinComma res.2.2)

/-! ### Gate output shape predicates -/

/-- An exercise entry as the gates emit it on the non-fallback paths: a
truthy valid id and the canonical catalog name. -/
def canonEx (cat : Catalog) (ex : Exercise) : Prop :=
  ∃ k, ex.id = some k ∧ ex.name = catName cat k ∧ k ≠ 0 ∧ catHasId cat k = true

/-- Running invariant of the dynamic gate day loops, for a state of
used-id set `du` and output list `out`. -/
def dynInv (cat : Catalog) (du : List Nat) (out : List Exercise) : Prop :=
  du.Nodup ∧ du.length = out.length ∧ (exIds out).Nodup ∧
  (∀ k ∈ exIds out, k ∈ du) ∧ (∀ k ∈ du, catHasId cat k = true) ∧
  (∀ ex ∈ out, ∃ k, ex.id = some k ∧ catHasId cat k = true)

/-! ### Concrete inputs used by counterexamples and witnesses -/

/-- A one-row catalog. -/
def catBench : Catalog := ⟨[(1, ⟨"Bench", "chest", false, false⟩)]⟩

/-- A template whose monday has no exercises. -/
def tplEmptyMonday : Template :=
  ⟨"T", "muscle_gain", [("monday", ⟨"Monday", [], []⟩)], []⟩

/-- A template with the single custom day key `day1`. -/
def tplDay1 : Template :=
  ⟨"T", "muscle_gain", [("day1", ⟨"Day 1", [], []⟩)], []⟩

/-- A monday whose two exercises have distinct ids, the second carrying
an off-catalog id but a resolvable name. -/
def tplDupRisk : Template :=
  ⟨"T", "muscle_gain",
   [("monday", ⟨"Monday", [],
     [⟨some 1, "Bench", some 3, some (Reps.num 10), none⟩,
      ⟨some 999, "Bench", some 3, some (Reps.num 10), none⟩]⟩)], []⟩

/-- A template already holding all six weekday keys. -/
def tplSix : Template :=
  ⟨"T", "muscle_gain",
   [("monday", ⟨"Monday", [], []⟩), ("tuesday", ⟨"Tuesday", [], []⟩),
    ("wednesday", ⟨"Wednesday", [], []⟩), ("thursday", ⟨"Thursday", [], []⟩),
    ("friday", ⟨"Friday", [], []⟩), ("saturday", ⟨"Saturday", [], []⟩)], []⟩

/-! ### llm_edit_template (workout_llm_helper.py:2119-2278), with the
language-model call abstracted as the response argument. -/

/-- The `day_reduction_keywords` list. -/
def day_reduction_keywords : List String :=
  ["reduce", "fewer", "less", "cut down", "decrease", "minimize"]

/-- The `day_expansion_keywords` list. -/
def day_expansion_keywords : List String :=
  ["add", "more", "increase", "expand", "extra", "additional"]

/-- Greedy `\s*` skip. -/
def wsSkip (s : Chars) : Chars := s.dropWhile Char.isWhitespace

/-- Greedy `(\d+)`: the maximal digit run and its value, or failure. -/
def digitRun (s : Chars) : Option (Nat × Chars) :=
  let ds := s.takeWhile Char.isDigit
  if ds = [] then none else some (digitsToNat ds, s.dropWhile Char.isDigit)

/-- A literal word of a pattern: consume it or fail. -/
def prefDrop (w : String) (s : Chars) : Option Chars :=
  if isPrefC w.data s then some (s.drop w.data.length) else none

/-- Does `\b` hold between the previous character and a word character. -/
def bAt : Option Char → Bool
  | none => true
  | some c => !(isWordChar c)

/-- Does `\b` hold after a word character, before this remainder. -/
def atWordEnd : Chars → Bool
  | [] => true
  | c :: _ => !(isWordChar c)

/-- The tail `s?\b` after a word: with the optional `s` when present
(backtracking to the bare word cannot help, `s` is a word character). -/
def optSWordEnd : Chars → Bool
  | 's' :: r => atWordEnd r
  | s => atWordEnd s

/-- Leftmost `re.search` scan: try the position matcher at every
position, tracking the previous character for `\b`. -/
def scanPos (patAt : Option Char → Chars → Option Nat) :
    Option Char → Chars → Option Nat
  | prev, [] => patAt prev []
  | prev, c :: rest =>
    (patAt prev (c :: rest)).orElse (fun _ => scanPos patAt (some c) rest)

/-- Pattern `(?:to|make.*?to|change.*?to|for)\s*(\d+)\s*days?`, tail
after the leading alternative: `\s*(\d+)\s*days?`. -/
def numThenDay (s : Chars) : Option Nat :=
  match digitRun (wsSkip s) with
  | none => none
  | some (n, r) => if isPrefC "day".data (wsSkip r) then some n else none

/-- Lazy gap `.*?to` followed by `\s*(\d+)\s*days?`: the shortest gap
whose continuation matches. -/
def lazyToNum : Chars → Option Nat
  | [] => none
  | c :: rest =>
    (match prefDrop "to" (c :: rest) with
     | some r => numThenDay r
     | none => none).orElse (fun _ => lazyToNum rest)

/-- Lazy gap `.*?(\d+)\s*days?`. -/
def lazyNumDay : Chars → Option Nat
  | [] => none
  | c :: rest =>
    (match digitRun (c :: rest) with
     | some (n, r) => if isPrefC "day".data (wsSkip r) then some n else none
     | none => none).orElse (fun _ => lazyNumDay rest)

/-- Lazy gap `.*?for` followed by `.*?(\d+)\s*days?`. -/
def lazyForNum : Chars → Option Nat
  | [] => none
  | c :: rest =>
    (match prefDrop "for" (c :: rest) with
     | some r => lazyNumDay r
     | none => none).orElse (fun _ => lazyForNum rest)

/-- Lazy gap `.*?template` followed by `.*?(\d+)\s*days?`. -/
def lazyTemplateNum : Chars → Option Nat
  | [] => none
  | c :: rest =>
    (match prefDrop "template" (c :: rest) with
     | some r => lazyNumDay r
     | none => none).orElse (fun _ => lazyTemplateNum rest)

/-- Position matcher of
`(?:to|make.*?to|change.*?to|for)\s*(\d+)\s*days?`. -/
def npat1At (_ : Option Char) (s : Chars) : Option Nat :=
  ((match prefDrop "to" s with
    | some r => numThenDay r
    | none => none).orElse (fun _ =>
   match prefDrop "make" s with
   | some r => lazyToNum r
   | none => none)).orElse (fun _ =>
  ((match prefDrop "change" s with
    | some r => lazyToNum r
    | none => none).orElse (fun _ =>
   match prefDrop "for" s with
   | some r => numThenDay r
   | none => none)))

/-- Position matcher of
`(\d+)\s*days?(?:\s+(?:only|total|workout))?` (the optional tail group
never blocks a match). -/
def npat2At (_ : Option Char) (s : Chars) : Option Nat :=
  match digitRun s with
  | none => none
  | some (n, r) => if isPrefC "day".data (wsSkip r) then some n else none

/-- Position matcher of `template.*?for.*?(\d+)\s*days?`. -/
def npat3At (_ : Option Char) (s : Chars) : Option Nat :=
  match prefDrop "template" s with
  | some r => lazyForNum r
  | none => none

/-- Position matcher of `make.*?template.*?(\d+)\s*days?`. -/
def npat4At (_ : Option Char) (s : Chars) : Option Nat :=
  match prefDrop "make" s with
  | some r => lazyTemplateNum r
  | none => none

/-- The `number_patterns` loop of llm_edit_template: the first pattern
with a match anywhere yields its first captured number. -/
def llmNumberTarget (il : Chars) : Option Nat :=
  ((scanPos npat1At none il).orElse (fun _ =>
    scanPos npat2At none il)).orElse (fun _ =>
  ((scanPos npat3At none il).orElse (fun _ => scanPos npat4At none il)))

/-- The `(user_wants_day_reduction, user_wants_day_expansion)` flags of
llm_edit_template, from the lowered instruction and the current day
count. -/
def llmDayFlags (il : Chars) (current_days : Nat) : Bool × Bool :=
  let red0 := day_reduction_keywords.any (fun k => isInfC k.data il) &&
    isInfC "day".data il
  let exp0 := day_expansion_keywords.any (fun k => isInfC k.data il) &&
    isInfC "day".data il
  if isInfC "day".data il && !red0 && !exp0 then
    match llmNumberTarget il with
    | some target =>
      (decide (target < current_days), decide (current_days < target))
    | none => (red0, exp0)
  else (red0, exp0)

/-- Python `summary or default` on an optional string. -/
def strOr (d : String) (s : Option String) : String :=
  if truthyStr s then s.getD "" else d

/-- The fixed summary of the corrupted-structure revert branch. -/
def llmCorruptMsg : String :=
  "Could not apply change - LLM altered template structure. Template preserved."

/-- `llm_edit_template(oai, model, template, instruction, profile_hint,
db)` with the model call abstracted: `resp = none` is the exception
path (test mode or call failure; the exception text interpolated into
its summary is dropped), `resp = some (t?, s?)` is a parsed response
whose `template` and `summary` fields are `t?` and `s?`.  A response
whose `days` is not a dict is outside this model, and `setdefault` on
the always-present name field is the identity. -/
def llm_edit_template (template : Template) (instruction : String)
    (resp : Option (Option Template × Option String)) (cat : Catalog) :
    Template × String :=
  let original_days := keysOf template.days
  let fl := llmDayFlags (lowerC instruction.data) original_days.length
  match resp with
  | none =>
    let gated :=
      if original_days.length ≤ 6 &&
          original_days.all (fun d => DAYS6.contains d) then
        enforce_catalog_on_template_db cat template
      else
        enforce_catalog_on_template_db_dynamic cat template
          (original_days.map titleCase)
    (gated,
     "I had trouble processing that request. Your template has been preserved. Try rephrasing your request or being more specific.")
  | some obj =>
    let updated := obj.1.getD template
    let updated_days := keysOf updated.days
    let validChange :=
      (fl.1 && decide (updated_days.length < original_days.length)) ||
      (fl.2 && decide (original_days.length < updated_days.length))
    if ¬ listSetEq updated_days original_days then
      if validChange then
        (updated,
         strOr ((if fl.1 then "Successfully reduction template to "
                 else "Successfully expansion template to ") ++
           toString updated_days.length ++ " days") obj.2)
      else (template, llmCorruptMsg)
    else
      let ds1 :=
        if validChange then updated.days
        else
          (original_days.foldl (fun ds k =>
            if (alGet ds k).isSome then ds
            else alSet ds k ((alGet template.days k).getD
              ⟨titleCase k, [], []⟩)) updated.days).filter
            (fun kd => original_days.contains kd.1)
      let upd2 := { updated with days := ds1 }
      let current_days := keysOf upd2.days
      let gated :=
        if current_days.length ≤ 6 &&
            current_days.all (fun d => DAYS6.contains d) then
          enforce_catalog_on_template_db cat upd2
        else
          enforce_catalog_on_template_db_dynamic cat upd2
            (current_days.map titleCase)
      (gated, strOr "Updated template successfully" obj.2)

/-! ### UltraFlexibleParser.extract_days_count
(workout_template_chatbot.py:321-387).  The `re` patterns are embedded
as direct scanners; each carries the original pattern in its comment. -/

/-- The `special_phrases` table, in its insertion order. -/
def special_phrases : List (String × Nat) :=
  [("usual", 6), ("normal", 6), ("default", 6), ("standard", 6),
   ("typical", 6),
   ("full week", 7), ("whole week", 7), ("all days", 7), ("every day", 7),
   ("daily", 7),
   ("weekdays", 5), ("work days", 5), ("monday to friday", 5),
   ("mon-fri", 5),
   ("weekend", 2), ("weekends", 2),
   ("monday to saturday", 6), ("mon-sat", 6),
   ("as usual", 6), ("like usual", 6), ("same as usual", 6),
   ("1week", 7), ("1 week", 7), ("one week", 7),
   ("2week", 14), ("2 week", 14), ("two week", 14),
   ("week", 7), ("weekly", 7)]

/-- Position matcher of `^\s*(\d+)\s*$` (anchored, so matched
directly). -/
def edP1 (t : Chars) : Option Nat :=
  match digitRun (wsSkip t) with
  | none => none
  | some (n, r) => if wsSkip r = [] then some n else none

/-- Position matcher of `\b(\d+)\s*(?:days?|day)\b`. -/
def edP2At (prev : Option Char) (s : Chars) : Option Nat :=
  if bAt prev then
    match digitRun s with
    | none => none
    | some (n, r) =>
      match prefDrop "day" (wsSkip r) with
      | some r2 => if optSWordEnd r2 then some n else none
      | none => none
  else none

/-- Position matcher of
`\b(\d+)\s*(?:times?|time)?\s*(?:per|a)?\s*week\b` (the optional
groups backtrack over their alternatives). -/
def edP3At (prev : Option Char) (s : Chars) : Option Nat :=
  if bAt prev then
    match digitRun s with
    | none => none
    | some (n, r) =>
      let s1 := wsSkip r
      let c1 : List Chars :=
        (match prefDrop "times" s1 with | some x => [x] | none => []) ++
        (match prefDrop "time" s1 with | some x => [x] | none => []) ++ [s1]
      if c1.any (fun s2 =>
          let s3 := wsSkip s2
          let c2 : List Chars :=
            (match prefDrop "per" s3 with | some x => [x] | none => []) ++
            (match prefDrop "a" s3 with | some x => [x] | none => []) ++ [s3]
          c2.any (fun s4 =>
            match prefDrop "week" (wsSkip s4) with
            | some r5 => atWordEnd r5
            | none => false)) then some n else none
  else none

/-- Position matcher of `\b(\d+)\s*(?:workout|session)s?\b`. -/
def edP4At (prev : Option Char) (s : Chars) : Option Nat :=
  if bAt prev then
    match digitRun s with
    | none => none
    | some (n, r) =>
      let s1 := wsSkip r
      let ok := fun (w : String) =>
        match prefDrop w s1 with
        | some r2 => optSWordEnd r2
        | none => false
      if ok "workout" || ok "session" then some n else none
  else none

/-- Position matcher of `(?:for|about|around)\s*(\d+)\b`. -/
def edP5At (_ : Option Char) (s : Chars) : Option Nat :=
  let tryW := fun (w : String) =>
    match prefDrop w s with
    | some r =>
      match digitRun (wsSkip r) with
      | some (n, r2) => if atWordEnd r2 then some n else none
      | none => none
    | none => none
  ((tryW "for").orElse (fun _ => tryW "about")).orElse
    (fun _ => tryW "around")

/-- Position matcher of `\b(\d+)\s*(?:of|out of)\s*7\b`. -/
def edP6At (prev : Option Char) (s : Chars) : Option Nat :=
  if bAt prev then
    match digitRun s with
    | none => none
    | some (n, r) =>
      let s1 := wsSkip r
      let after := fun (r2 : Chars) =>
        match wsSkip r2 with
        | '7' :: r3 => atWordEnd r3
        | _ => false
      let t1 := match prefDrop "of" s1 with
        | some r2 => after r2
        | none => false
      let t2 := match prefDrop "out of" s1 with
        | some r2 => after r2
        | none => false
      if t1 || t2 then some n else none
  else none

/-- Position matcher of `(?:build|create|make)\s*(\d+)`. -/
def edP7At (_ : Option Char) (s : Chars) : Option Nat :=
  let tryW := fun (w : String) =>
    match prefDrop w s with
    | some r => (digitRun (wsSkip r)).map Prod.fst
    | none => none
  ((tryW "build").orElse (fun _ => tryW "create")).orElse
    (fun _ => tryW "make")

/-- Position matcher of
`(\d+)\s*(?:days?|day)?\s*(?:workout|plan|routine)`. -/
def edP8At (_ : Option Char) (s : Chars) : Option Nat :=
  match digitRun s with
  | none => none
  | some (n, r) =>
    let s1 := wsSkip r
    let c1 : List Chars :=
      (match prefDrop "days" s1 with | some x => [x] | none => []) ++
      (match prefDrop "day" s1 with | some x => [x] | none => []) ++ [s1]
    if c1.any (fun s2 =>
        let s3 := wsSkip s2
        (prefDrop "workout" s3).isSome || (prefDrop "plan" s3).isSome ||
          (prefDrop "routine" s3).isSome) then some n else none

/-- Position matcher of
`(?:create|make|build)\s*(\d+)\s*(?:template|plan)s?`. -/
def edP9At (_ : Option Char) (s : Chars) : Option Nat :=
  let tryW := fun (w : String) =>
    match prefDrop w s with
    | some r =>
      match digitRun (wsSkip r) with
      | some (n, r2) =>
        let s3 := wsSkip r2
        if (prefDrop "template" s3).isSome || (prefDrop "plan" s3).isSome
        then some n else none
      | none => none
    | none => none
  ((tryW "create").orElse (fun _ => tryW "make")).orElse
    (fun _ => tryW "build")

/-- Position matcher of `(\d+)\s*(?:template|plan)s?`. -/
def edP10At (_ : Option Char) (s : Chars) : Option Nat :=
  match digitRun s with
  | none => none
  | some (n, r) =>
    let s1 := wsSkip r
    if (prefDrop "template" s1).isSome || (prefDrop "plan" s1).isSome
    then some n else none

/-- Position matcher of `(\d+)\s*weeks?\s*(?:of|worth)`. -/
def edP11At (_ : Option Char) (s : Chars) : Option Nat :=
  match digitRun s with
  | none => none
  | some (n, r) =>
    match prefDrop "week" (wsSkip r) with
    | none => none
    | some r2 =>
      let c1 : List Chars :=
        (match r2 with | 's' :: x => [x] | _ => []) ++ [r2]
      if c1.any (fun s2 =>
          let s3 := wsSkip s2
          (prefDrop "of" s3).isSome || (prefDrop "worth" s3).isSome)
      then some n else none

/-- Position matcher of `(\d+)\s*(?:week|weekly)` (a match of the
second alternative is also one of the first). -/
def edP12At (_ : Option Char) (s : Chars) : Option Nat :=
  match digitRun s with
  | none => none
  | some (n, r) =>
    if (prefDrop "week" (wsSkip r)).isSome then some n else none

/-- The `enhanced_patterns` list as leftmost-match scanners. -/
def enhancedPatterns : List (Chars → Option Nat) :=
  [edP1,
   scanPos edP2At none, scanPos edP3At none, scanPos edP4At none,
   scanPos edP5At none, scanPos edP6At none, scanPos edP7At none,
   scanPos edP8At none, scanPos edP9At none, scanPos edP10At none,
   scanPos edP11At none, scanPos edP12At none]

/-- The `enhanced_patterns` loop: the first matching pattern returns
`count*7` on the week branch, `count` when `1 <= count <= 7`, and
otherwise the loop continues with the next pattern. -/
def edTryPatterns (weekIn : Bool) : List (Chars → Option Nat) → Chars →
    Option Nat
  | [], _ => none
  | p :: rest, t =>
    match p t with
    | some count =>
      if weekIn && decide (count ≤ 4) then some (count * 7)
      else if 1 ≤ count ∧ count ≤ 7 then some count
      else edTryPatterns weekIn rest t
    | none => edTryPatterns weekIn rest t

/-- A token of a day-mention pattern: a required or optional character
class. -/
inductive RTok where
  | req (cs : List Char)
  | opt (cs : List Char)

/-- A required single character. -/
def rq (c : Char) : RTok := RTok.req [c]

/-- Match a token pattern at this position (optional tokens backtrack). -/
def rmatchAt : List RTok → Chars → Bool
  | [], _ => true
  | RTok.req _ :: _, [] => false
  | RTok.req cs :: rest, c :: s => cs.contains c && rmatchAt rest s
  | RTok.opt _ :: rest, [] => rmatchAt rest []
  | RTok.opt cs :: rest, c :: s =>
    (cs.contains c && rmatchAt rest s) || rmatchAt rest (c :: s)

/-- `re.search` of a token pattern. -/
def rsearch (p : List RTok) : Chars → Bool
  | [] => rmatchAt p []
  | s@(_ :: rest) => rmatchAt p s || rsearch p rest

/-- The `DAY_PATTERNS` table (day names dropped, only the pattern lists
are needed); trailing always-empty parts such as `(?:day)?` and `\w*`
are dropped, internal optionals kept. -/
def dayPatternsList : List (List (List RTok)) :=
  [[[rq 'm', rq 'o', rq 'n'], [rq 'm', RTok.req ['o', 'u'], rq 'n'],
    [rq 'm', rq 'n', RTok.opt ['d'], RTok.opt ['y']],
    [rq 'm', rq 'n', rq 'd', rq 'y'], [rq 'm', rq 'o', rq 'n', RTok.opt ['d']],
    [rq 'm', rq 'o', rq 'n', rq 'd', RTok.opt ['a'], RTok.opt ['y']]],
   [[rq 't', rq 'u', rq 'e'], [rq 't', RTok.req ['u', 'e']],
    [rq 't', rq 'u', rq 'e', RTok.opt ['s']],
    [rq 't', rq 'u', rq 's', RTok.opt ['d'], RTok.opt ['y']],
    [rq 't', rq 'u', rq 's', rq 'd', rq 'a', rq 'y']],
   [[rq 'w', rq 'e', rq 'd'], [rq 'w', RTok.req ['e', 'd']],
    [rq 'w', rq 'e', rq 'd', RTok.opt ['n']],
    [rq 'w', rq 'e', rq 'd', rq 'n', RTok.opt ['s'], rq 'd', rq 'a', rq 'y'],
    [rq 'w', rq 'e', rq 'n', rq 's', RTok.opt ['d'], RTok.opt ['y']]],
   [[rq 't', rq 'h', rq 'u'], [rq 't', rq 'h', RTok.req ['u', 'r']],
    [rq 't', rq 'h', rq 'r', RTok.opt ['s']],
    [rq 't', rq 'h', rq 'u', rq 'r', rq 's', RTok.opt ['d'], RTok.opt ['y']],
    [rq 't', rq 'h', rq 'r', rq 's', rq 'd', rq 'y']],
   [[rq 'f', rq 'r', rq 'i'], [rq 'f', RTok.req ['r', 'i']],
    [rq 'f', rq 'r', rq 'i', RTok.opt ['d'], RTok.opt ['y']],
    [rq 'f', rq 'r', rq 'i', rq 'd', rq 'y']],
   [[rq 's', rq 'a', rq 't'], [rq 's', RTok.req ['a', 't']],
    [rq 's', rq 'a', rq 't', RTok.opt ['d'], RTok.opt ['y']],
    [rq 's', rq 'a', rq 't', rq 'u', rq 'r', rq 'd', rq 'y'],
    [rq 's', rq 'a', rq 't', rq 'r', rq 'd', rq 'y']],
   [[rq 's', rq 'u', rq 'n'], [rq 's', RTok.req ['u', 'n']],
    [rq 's', rq 'u', rq 'n', RTok.opt ['d'], RTok.opt ['y']],
    [rq 's', rq 'u', rq 'n', rq 'd', rq 'y']]]

/-- `UltraFlexibleParser.extract_days_count(text)`. -/
def extract_days_count (text : String) : Option Nat :=
  if trimC text.data = [] then none
  else
    let t := trimC (lowerC text.data)
    match special_phrases.find? (fun p => isInfC p.1.data t) with
    | some p => some p.2
    | none =>
      match edTryPatterns (isInfC "week".data t) enhancedPatterns t with
      | some n => some n
      | none =>
        let mentioned := dayPatternsList.countP (fun pats =>
          pats.any (fun p => rsearch p t))
        if mentioned ≠ 0 then some mentioned else none

/-- The ASK_DAYS advance check of the chatbot state machine
(workout_template_chatbot.py:724): `(extracted_days is not None and
extracted_days > 0) or context_days`. -/
def askDaysAdvances (extracted : Option Nat) (context_days : Bool) : Bool :=
  (extracted.isSome && decide (0 < extracted.getD 0)) || context_days

/-! ### apply_manual_edit (workout_llm_helper.py:2595-2986), the
universal alternative and replacement handler.  The db-None test-mode
branch (an explicit day-count-change path whose synthetic exercises
carry string ids) is outside this model, so the embedded function takes
a loaded catalog; the `load_catalog` guard and its except branch are
vacuous for a loaded `Catalog` value. -/

/-- The result of apply_manual_edit: a `(template, summary)` return,
the implicit Python `None` fall-through when neither an alternative nor
a replacement request fires, or the non-termination of the 6-exercise
minimum while loop when the database holds 1-5 matching exercises. -/
inductive ManualEditResult where
  | ret (t : Template) (s : String)
  | retNone
  | hang
deriving DecidableEq

/-- Leftmost `re.search` scan of a position matcher. -/
def scanO {α : Type} (p : Chars → Option α) : Chars → Option α
  | [] => p []
  | s@(_ :: rest) => (p s).orElse (fun _ => scanO p rest)

/-- Greedy `(\w+)`: the maximal word-character run, nonempty. -/
def wordRun (s : Chars) : Option (Chars × Chars) :=
  let w := s.takeWhile isWordChar
  if w = [] then none else some (w, s.dropWhile isWordChar)

/-- Greedy `\s+` (at least one, followed by a non-space literal in
every use, so no backtracking). -/
def ws1 : Chars → Option Chars
  | [] => none
  | c :: rest =>
    if c.isWhitespace then some ((c :: rest).dropWhile Char.isWhitespace)
    else none

/-- The two remainders an optional `(?:w\s+)?` can leave, consumed
first (greedy), then skipped. -/
def optWordWs (w : String) (s : Chars) : List Chars :=
  (match prefDrop w s with
   | some r =>
     match ws1 r with
     | some r2 => [r2]
     | none => []
   | none => []) ++ [s]

/-- Capture of `(\w+day|\w+)` at pattern end: the longest word-run
prefix ending in `day` (with a nonempty `\w+` part), else the whole
run. -/
def g2DayWord (s : Chars) : Option Chars :=
  match wordRun s with
  | none => none
  | some (w, _) =>
    match (List.range w.length).findSome? (fun d =>
      let k := w.length - d
      if 4 ≤ k ∧ (w.take k).drop (k - 3) = "day".data then some k
      else none) with
    | some k => some (w.take k)
    | none => some w

/-- The tail `exercise[s]?` of the day-muscle patterns (at pattern end
the optional `s` never blocks). -/
def exerciseWord (s : Chars) : Option Chars :=
  (prefDrop "exercise" s).map (fun r =>
    match r with
    | 's' :: t => t
    | _ => r)

/-- Position matcher of day-muscle pattern 1,
`(?:give|add|put|make)\s+(?:only\s+)?(\w+)\s+exercise[s]?\s+(?:on\s+)?(\w+day|\w+)`. -/
def dmp1At (s : Chars) : Option (Chars × Chars) :=
  match (((prefDrop "give" s).orElse (fun _ => prefDrop "add" s)).orElse
      (fun _ => prefDrop "put" s)).orElse (fun _ => prefDrop "make" s) with
  | none => none
  | some r0 =>
    match ws1 r0 with
    | none => none
    | some r1 =>
      (optWordWs "only" r1).findSome? (fun r2 =>
        match wordRun r2 with
        | none => none
        | some (g1, r3) =>
          match ws1 r3 with
          | none => none
          | some r4 =>
            match exerciseWord r4 with
            | none => none
            | some r5 =>
              match ws1 r5 with
              | none => none
              | some r6 =>
                (match prefDrop "on" r6 with
                 | some r7 =>
                   match ws1 r7 with
                   | some r8 => (g2DayWord r8).map (fun g2 => (g1, g2))
                   | none => none
                 | none => none).orElse (fun _ =>
                  (g2DayWord r6).map (fun g2 => (g1, g2))))

/-- Position matcher of day-muscle pattern 2,
`(?:change|replace)\s+(\w+day|\w+)\s+(?:to\s+)?(?:only\s+)?(\w+)\s+exercise[s]?`
(followed by `\s+`, the first group always captures its whole word
run). -/
def dmp2At (s : Chars) : Option (Chars × Chars) :=
  match (prefDrop "change" s).orElse (fun _ => prefDrop "replace" s) with
  | none => none
  | some r0 =>
    match ws1 r0 with
    | none => none
    | some r1 =>
      match wordRun r1 with
      | none => none
      | some (g1, r2) =>
        match ws1 r2 with
        | none => none
        | some r3 =>
          (optWordWs "to" r3).findSome? (fun r4 =>
            (optWordWs "only" r4).findSome? (fun r5 =>
              match wordRun r5 with
              | none => none
              | some (g2, r6) =>
                match ws1 r6 with
                | none => none
                | some r7 =>
                  if (prefDrop "exercise" r7).isSome then some (g1, g2)
                  else none))

/-- Position matcher of day-muscle pattern 3,
`(\w+day|\w+)\s+(?:should\s+)?(?:have\s+)?(?:only\s+)?(\w+)\s+exercise[s]?`. -/
def dmp3At (s : Chars) : Option (Chars × Chars) :=
  match wordRun s with
  | none => none
  | some (g1, r1) =>
    match ws1 r1 with
    | none => none
    | some r2 =>
      (optWordWs "should" r2).findSome? (fun r3 =>
        (optWordWs "have" r3).findSome? (fun r4 =>
          (optWordWs "only" r4).findSome? (fun r5 =>
            match wordRun r5 with
            | none => none
            | some (g2, r6) =>
              match ws1 r6 with
              | none => none
              | some r7 =>
                if (prefDrop "exercise" r7).isSome then some (g1, g2)
                else none)))

/-- The muscle/day disambiguation of a day-muscle match: a group
containing a weekday name wins, else the first weekday sharing its
3-letter prefix or containing the group; `none` when unresolved (the
falsy `if target_day and muscle`). -/
def resolveDayMuscle (g1 g2 : Chars) : Option (Chars × Chars) :=
  if sevenDayKeywords.any (fun d => isInfC d.data g1) then some (g1, g2)
  else if sevenDayKeywords.any (fun d => isInfC d.data g2) then some (g2, g1)
  else
    sevenDayKeywords.findSome? (fun d =>
      if isInfC (d.data.take 3) g1 || isInfC g1 d.data then
        some (d.data, g2)
      else if isInfC (d.data.take 3) g2 || isInfC g2 d.data then
        some (d.data, g1)
      else none)

/-- The first template day key two-way substring matching the target
day. -/
def findMatchingDayKey (days : List (String × Day)) (td : Chars) :
    Option String :=
  (days.find? (fun kd =>
    isInfC td (lowerC kd.1.data) || isInfC (lowerC kd.1.data) td)).map
    Prod.fst

/-- The hard-coded `muscle_exercise_names` lists (other muscles have no
list). -/
def muscleExerciseNames (m : Chars) : List String :=
  if m = "chest".data then
    ["bench press", "chest press", "push up", "chest fly", "chest flye",
     "incline press", "decline press", "dips", "pec fly"]
  else if m = "back".data then
    ["pull up", "lat pulldown", "row", "deadlift", "shrug"]
  else if m = "leg".data ∨ m = "legs".data then
    ["squat", "lunge", "leg press", "leg extension", "leg curl",
     "calf raise", "step up"]
  else []

/-- Every distinct-id catalog row whose lowered name contains one of
the muscle names, in stored order (the initial 6-capped loop plus the
minimum-enforcement passes reach exactly the first six of these, and
loop forever when 1-5 exist). -/
def dmMatching (cat : Catalog) (names : List String) :
    List (Nat × CatEntry) :=
  cat.by_id.foldl (fun acc p =>
    if names.any (fun mn => isInfC mn.data (lowerC p.2.name.data)) ∧
        ¬ (acc.map Prod.fst).contains p.1 then acc ++ [p] else acc) []

/-- The day-specific muscle branch, after a resolved day-muscle match. -/
def dayMuscleBranch (cat : Catalog) (template : Template)
    (td muscle : Chars) : ManualEditResult :=
  match findMatchingDayKey template.days td with
  | none =>
    .ret template ("Day " ++ (⟨td⟩ : String) ++
      " not found. Available days: " ++ joinComma (keysOf template.days))
  | some mk =>
    let matching := dmMatching cat (muscleExerciseNames muscle)
    if matching = [] then
      .ret template ("No " ++ (⟨muscle⟩ : String) ++
        " exercises found in database")
    else if matching.length < 6 then .hang
    else
      let ne := (matching.take 6).map (fun p =>
        (⟨some p.1, p.2.name, some 3, some (Reps.num 10), none⟩ : Exercise))
      let ne2 := if ne.length > 8 then ne.take 8 else ne
      let dd := (alGet template.days mk).getD emptyDay
      let mt := titleCase ⟨muscle⟩
      let dd2 : Day := { dd with
        title := mt ++ " Day", muscle_groups := [mt], exercises := ne2 }
      .ret ({ template with days := alSet template.days mk dd2 })
        ("Changed " ++ mk ++ " to only " ++ (⟨muscle⟩ : String) ++
          " exercises: " ++
          joinComma ((ne2.map (fun e2 => e2.name)).take 3) ++
          (if 3 < ne2.length then "..." else ""))

/-- The tail `\s+(.+)` (also `\s+(.+?)$`): skip the whitespace run and
capture the nonempty remainder; when only whitespace remains, the
greedy `\s+` gives one character back to the capture. -/
def capTail : Chars → Option Chars
  | [] => none
  | c :: rest =>
    if c.isWhitespace then
      let g := (c :: rest).dropWhile Char.isWhitespace
      if g ≠ [] then some g
      else if rest = [] then none
      else some ((c :: rest).drop rest.length)
    else none

/-- The core `\s+(.+?)\s+sep\s+(.+)` of a replacement pattern, after
its keyword: the greedy leading `\s+` backtracks from longest, the lazy
first capture grows from shortest. -/
def repSplitSep (sep : String) (seg0 : Chars) : Option (Chars × Chars) :=
  let maxj := (seg0.takeWhile Char.isWhitespace).length
  (List.range maxj).findSome? (fun d =>
    let seg := seg0.drop (maxj - d)
    (List.range' 1 seg.length).findSome? (fun k =>
      let g1 := seg.take k
      match seg.drop k with
      | [] => none
      | c :: rest =>
        if c.isWhitespace then
          match prefDrop sep ((c :: rest).dropWhile Char.isWhitespace) with
          | some r3 => (capTail r3).map (fun g2 => (g1, g2))
          | none => none
        else none))

/-- One replacement pattern `kw\s+(.+?)\s+sep\s+(.+)` at a position. -/
def repPatAt (kw sep : String) (s : Chars) : Option (Chars × Chars) :=
  match prefDrop kw s with
  | some r0 => repSplitSep sep r0
  | none => none

/-- The `replacement_patterns` table: replace/with, change/to,
swap/for, substitute/with. -/
def repPatterns : List (String × String) :=
  [("replace", "with"), ("change", "to"), ("swap", "for"),
   ("substitute", "with")]

/-- Method 1: the first replacement pattern with a match anywhere, its
two stripped captures. -/
def repExtract (il : Chars) : Option (Chars × Chars) :=
  repPatterns.findSome? (fun p =>
    (scanO (repPatAt p.1 p.2) il).map (fun g => (trimC g.1, trimC g.2)))

/-- `(?:alternate|alternative)` (the two prefixes differ at their ninth
character, so no backtracking between them). -/
def altKw (s : Chars) : Option Chars :=
  (prefDrop "alternate" s).orElse (fun _ => prefDrop "alternative" s)

/-- Position matcher of `(?:alternate|alternative)\s+for\s+(.+?)$`. -/
def forPat1At (s : Chars) : Option Chars :=
  match altKw s with
  | none => none
  | some r0 =>
    match ws1 r0 with
    | none => none
    | some r1 =>
      match prefDrop "for" r1 with
      | none => none
      | some r2 => capTail r2

/-- Position matcher of `(?:alternate|alternative)\s+(.+?)$`. -/
def forPat2At (s : Chars) : Option Chars :=
  match altKw s with
  | none => none
  | some r0 => capTail r0

/-- Position matcher of `different\s+exercise\s+for\s+(.+?)$`. -/
def forPat3At (s : Chars) : Option Chars :=
  match prefDrop "different" s with
  | none => none
  | some r0 =>
    match ws1 r0 with
    | none => none
    | some r1 =>
      match prefDrop "exercise" r1 with
      | none => none
      | some r2 =>
        match ws1 r2 with
        | none => none
        | some r3 =>
          match prefDrop "for" r3 with
          | none => none
          | some r4 => capTail r4

/-- Position matcher of `something\s+else\s+for\s+(.+?)$`. -/
def forPat4At (s : Chars) : Option Chars :=
  match prefDrop "something" s with
  | none => none
  | some r0 =>
    match ws1 r0 with
    | none => none
    | some r1 =>
      match prefDrop "else" r1 with
      | none => none
      | some r2 =>
        match ws1 r2 with
        | none => none
        | some r3 =>
          match prefDrop "for" r3 with
          | none => none
          | some r4 => capTail r4

/-- Position matcher of `for\s+(.+?)$`. -/
def forPat5At (s : Chars) : Option Chars :=
  match prefDrop "for" s with
  | none => none
  | some r0 => capTail r0

/-- The alternative fuzzy scan: best strictly-improving similarity
above the threshold, first maximum kept, returning the database name. -/
def fuzzyBestName (cat : Catalog) (pe : Chars) (thr : ℚ) : Option String :=
  (cat.by_id.foldl (fun acc p =>
    let score := calculate_similarity ⟨pe⟩ ⟨lowerC p.2.name.data⟩
    if acc.2 < score ∧ thr < score then (some p.2.name, score) else acc)
    ((none : Option String), (0 : ℚ))).1

/-- Method 2: the `for_patterns` loop; for each matching pattern the
stripped capture is fuzzy-resolved against the database at threshold
0.4, and only a resolved pattern breaks the loop. -/
def altExtract (cat : Catalog) (il : Chars) : Option String :=
  [forPat1At, forPat2At, forPat3At, forPat4At, forPat5At].findSome?
    (fun p =>
      match scanO p il with
      | some g => fuzzyBestName cat (trimC g) (2/5)
      | none => none)

/-- All contiguous `L`-word combinations of the instruction words, in
order (no minimum-length filter here, unlike the remove handler). -/
def phraseCombos (words : List Chars) (L : Nat) : List Chars :=
  if words.length < L then []
  else
    (List.range (words.length - L + 1)).map
      (fun i => joinSpace ((words.drop i).take L))

/-- Step 3: search the current template for any 3-, 2- or 1-word
combination that is a substring of an exercise name or similar to it
above 0.6; the first hit names the target exercise. -/
def step3Find (days : List (String × Day)) (il : Chars) : Option String :=
  [3, 2, 1].findSome? (fun L =>
    (phraseCombos (alphaRuns il) L).findSome? (fun ph =>
      days.findSome? (fun kd =>
        kd.2.exercises.findSome? (fun ex =>
          let en := lowerC ex.name.data
          if isInfC ph en ∨ (3/5 : ℚ) < calculate_similarity ⟨ph⟩ ⟨en⟩
          then some ex.name else none))))

/-- Is this template exercise the one to replace: exact lowered name
equality or similarity above 0.8. -/
def step4Target (target : String) (ex : Exercise) : Bool :=
  lowerC target.data == lowerC ex.name.data ||
  decide ((4/5 : ℚ) <
    calculate_similarity ⟨lowerC target.data⟩ ⟨lowerC ex.name.data⟩)

/-- The `related_muscles` table. -/
def related_muscles : List (String × List String) :=
  [("chest", ["upper body", "push"]), ("upper body", ["chest", "push"]),
   ("push", ["chest", "upper body"]), ("back", ["pull", "upper body"]),
   ("pull", ["back", "upper body"]),
   ("legs", ["lower body", "quadriceps", "hamstrings"]),
   ("lower body", ["legs", "quadriceps", "hamstrings"]),
   ("core", ["cardio", "full body"]), ("cardio", ["core", "full body"]),
   ("full body", ["core", "cardio"])]

/-- The truthy ids already used in the target day
(`set(ex.get("id") for ex in exercises if ex.get("id"))`). -/
def step4Used (dd : Day) : List Nat :=
  dd.exercises.filterMap (fun e2 => if truthyNat e2.id then e2.id else none)

/-- The alternative-id collection of step 4: day muscles at n=5, then
related muscles at n=3, then any five other unused ids. -/
def step4AltIds (cat : Catalog) (dd : Day) (ex : Exercise) : List Nat :=
  let used := step4Used dd
  let altIds0 := dd.muscle_groups.foldl (fun acc m =>
    acc ++ pick_from_muscles [⟨lowerC m.data⟩] cat used 5) []
  let altIds1 :=
    if altIds0 = [] then
      dd.muscle_groups.foldl (fun acc m =>
        match related_muscles.find? (fun p =>
            p.1 = (⟨lowerC m.data⟩ : String)) with
        | some p => acc ++ p.2.foldl (fun a2 rm =>
            a2 ++ pick_from_muscles [rm] cat used 3) []
        | none => acc) []
    else altIds0
  if altIds1 = [] then
    ((cat.by_id.map Prod.fst).filter (fun eid =>
      ex.id ≠ some eid ∧ ¬ used.contains eid)).take 5
  else altIds1

/-- The fuzzy scan for an explicitly requested replacement, threshold
0.6, skipping the current id and the used ids. -/
def step4SpecRep (cat : Catalog) (dd : Day) (ex : Exercise)
    (replOpt : Option String) : Option Nat :=
  let used := step4Used dd
  if truthyStr replOpt then
    (cat.by_id.foldl (fun acc p =>
      if ex.id ≠ some p.1 ∧ ¬ used.contains p.1 then
        let score := calculate_similarity
          ⟨lowerC (replOpt.getD "").data⟩ ⟨lowerC p.2.name.data⟩
        if acc.2 < score ∧ (3/5 : ℚ) < score then (some p.1, score)
        else acc
      else acc) ((none : Option Nat), (0 : ℚ))).1
  else none

/-- The chosen replacement id: the specific request first, else the
first usable alternative. -/
def step4RepId (cat : Catalog) (dd : Day) (ex : Exercise)
    (replOpt : Option String) : Option Nat :=
  match step4SpecRep cat dd ex replOpt with
  | some r => some r
  | none =>
    (step4AltIds cat dd ex).find? (fun a =>
      decide (ex.id ≠ some a) && (alGet cat.by_id a).isSome &&
      !((step4Used dd).contains a))

/-- Step 4, after the matching day and exercise index are found:
rewrite the entry in place with the chosen replacement, keeping the
original sets and reps (with the `.get` defaults 3 and 10). -/
def step4Replace (cat : Catalog) (template : Template) (dayKey : String)
    (dd : Day) (i : Nat) (ex : Exercise) (replOpt : Option String) :
    ManualEditResult :=
  match step4RepId cat dd ex replOpt with
  | some r =>
    let newEx : Exercise :=
      ⟨some r, catName cat r, some (ex.sets.getD 3),
       some (ex.reps.getD (Reps.num 10)), none⟩
    let dd2 : Day := { dd with exercises := dd.exercises.set i newEx }
    .ret ({ template with days := alSet template.days dayKey dd2 })
      ("Replaced " ++ ex.name ++ " with " ++ catName cat r ++ " in " ++
        titleCase dayKey)
  | none =>
    .ret template ("No suitable alternative found for " ++ ex.name ++
      " (all similar exercises already in use)")

/-- The first day and exercise index matching the target. -/
def step4Locate (days : List (String × Day)) (target : String) :
    Option (String × Day × Nat × Exercise) :=
  days.findSome? (fun kd =>
    match kd.2.exercises.findIdx? (step4Target target) with
    | some i =>
      match kd.2.exercises.get? i with
      | some ex => some (kd.1, kd.2, i, ex)
      | none => none
    | none => none)

/-- Step 4: the first day whose exercise list holds a match is
rewritten; with no match anywhere the template is returned with the
not-found message. -/
def step4Apply (cat : Catalog) (template : Template) (target : String)
    (replOpt : Option String) : ManualEditResult :=
  match step4Locate template.days target with
  | some f => step4Replace cat template f.1 f.2.1 f.2.2.1 f.2.2.2 replOpt
  | none =>
    .ret template ("Exercise " ++ target ++
      " not found in current template")

/-- `is_alternative_request`. -/
def isAltReq (il : Chars) : Bool :=
  isInfC "alternative".data il || isInfC "alternate".data il ||
  isInfC "different exercise".data il || isInfC "something else".data il

/-- `is_replacement_request`. -/
def isRepReq (il : Chars) : Bool :=
  ["replace", "change", "swap", "substitute"].any
    (fun w => isInfC w.data il)

/-- Steps 1-3 of the universal handler: the final
`(target_exercise_name, replacement_exercise_name)` pair after the
replacement patterns, the alternative patterns with their fuzzy
resolution, and the template word scan. -/
def universalTarget (cat : Catalog) (days : List (String × Day))
    (il : Chars) : Option String × Option String :=
  let pr : Option String × Option String :=
    if isRepReq il then
      match repExtract il with
      | some g => (some ⟨g.1⟩, some ⟨g.2⟩)
      | none => (none, none)
    else (none, none)
  let t2 := if ¬ truthyStr pr.1 ∧ isAltReq il then
      match altExtract cat il with
      | some t => some t
      | none => pr.1
    else pr.1
  let t3 := if ¬ truthyStr t2 then
      match step3Find days il with
      | some t => some t
      | none => t2
    else t2
  (t3, pr.2)

/-- The universal alternative-and-replacement handler (the part of
apply_manual_edit after the day-muscle loop); falls through to the
implicit Python `None` when neither request kind fires. -/
def universalBranch (cat : Catalog) (template : Template) (il : Chars) :
    ManualEditResult :=
  if isAltReq il || isRepReq il then
    let pr := universalTarget cat template.days il
    if truthyStr pr.1 then step4Apply cat template (pr.1.getD "") pr.2
    else
      .ret template "Could not identify which exercise you want an alternative for. Please specify the exercise name more clearly."
  else .retNone

/-- The day-muscle pattern loop: the first pattern whose leftmost match
resolves to a day and muscle. -/
def dayMusclePick (il : Chars) : Option (Chars × Chars) :=
  [dmp1At, dmp2At, dmp3At].findSome? (fun p =>
    match scanO p il with
    | some g => resolveDayMuscle g.1 g.2
    | none => none)

/-- `apply_manual_edit(template, instruction, db)` with a loaded
catalog: the day-muscle loop, then the universal handler.  Summary
quotes and emoji markers of the source are dropped from the message
text. -/
def apply_manual_edit (template : Template) (instruction : String)
    (cat : Catalog) : ManualEditResult :=
  let il := lowerC instruction.data
  match dayMusclePick il with
  | some tm => dayMuscleBranch cat template tm.1 tm.2
  | none => universalBranch cat template il

/-! ## Theorems -/

theorem truthyNat_some {k : Nat} (hk : k ≠ 0) : truthyNat (some k) = true := by
  cases k with
  | zero => exact absurd rfl hk
  | succ n => rfl

theorem chosenC1_canon {cat : Catalog} {ex : Exercise} {k : Nat}
    (hid : ex.id = some k) (hhas : catHasId cat k = true) :
    chosenC1 cat ex = some k := by
  unfold chosenC1
  rw [hid]
  simp [hhas]

theorem resolveChosen_canon {cat : Catalog} {m : List String} {u : List Nat}
    {ex : Exercise} {k : Nat} (hid : ex.id = some k) (hk : k ≠ 0)
    (hhas : catHasId cat k = true) : resolveChosen cat m u ex = some k := by
  unfold resolveChosen
  rw [chosenC1_canon hid hhas, truthyNat_some hk]
  simp

theorem staticStep_canon {cat : Catalog} {m : List String} {u : List Nat}
    {out : List Exercise} {ex : Exercise} {k : Nat} (hid : ex.id = some k)
    (hk : k ≠ 0) (hhas : catHasId cat k = true) :
    staticStep cat m (u, out) ex =
      (u.insert k, out ++ [{ id := some k, name := catName cat k, sets := ex.sets,
                             reps := ex.reps, note := ex.note }]) := by
  unfold staticStep
  rw [resolveChosen_canon hid hk hhas]
  simp [truthyNat_some hk]

theorem canonEx_eta {cat : Catalog} {ex : Exercise} {k : Nat}
    (hid : ex.id = some k) (hname : ex.name = catName cat k) :
    ({ id := some k, name := catName cat k, sets := ex.sets,
       reps := ex.reps, note := ex.note } : Exercise) = ex := by
  cases ex
  simp_all

theorem foldl_staticStep_canon (cat : Catalog) (m : List String) :
    ∀ (l : List Exercise), (∀ ex ∈ l, canonEx cat ex) →
      ∀ u out, (l.foldl (staticStep cat m) (u, out)).2 = out ++ l := by
  intro l
  induction l with
  | nil => intro _ u out; simp
  | cons ex rest ih =>
    intro hl u out
    obtain ⟨k, hid, hname, hk, hhas⟩ := hl ex (by simp)
    rw [List.foldl_cons, staticStep_canon hid hk hhas, canonEx_eta hid hname]
    rw [ih (fun e he => hl e (by simp [he])) (u.insert k) (out ++ [ex])]
    simp

theorem alGet_isSome_of_mem {κ α : Type} [DecidableEq κ] {l : List (κ × α)}
    {p : κ × α} (h : p ∈ l) : (alGet l p.1).isSome = true := by
  induction l with
  | nil => cases h
  | cons hd t ih =>
    obtain ⟨k, v⟩ := hd
    rcases List.mem_cons.1 h with rfl | hmem
    · simp [alGet]
    · by_cases hk : k = p.1
      · simp [alGet, hk]
      · simp [alGet, hk, ih hmem]

theorem id_for_name_hasId {nm : String} {cat : Catalog} {n : Nat}
    (h : id_for_name nm cat = some n) : catHasId cat n = true := by
  unfold id_for_name at h
  cases hf : cat.by_id.find? (fun p => lowerC p.2.name.data == lowerC nm.data) with
  | none => rw [hf] at h; cases h
  | some p =>
    rw [hf] at h
    simp at h
    have hmem := List.mem_of_find?_eq_some hf
    have := alGet_isSome_of_mem hmem
    unfold catHasId
    rw [h] at this
    exact this

theorem pick_hasId {muscles : List String} {cat : Catalog} {used : List Nat}
    {n k : Nat} (h : k ∈ pick_from_muscles muscles cat used n) :
    catHasId cat k = true := by
  unfold pick_from_muscles at h
  have h2 := List.mem_of_mem_take h
  obtain ⟨p, hp, rfl⟩ := List.mem_map.1 h2
  exact alGet_isSome_of_mem (List.mem_of_mem_filter hp)

theorem pick_not_used {muscles : List String} {cat : Catalog} {used : List Nat}
    {n k : Nat} (h : k ∈ pick_from_muscles muscles cat used n) :
    k ∉ used := by
  unfold pick_from_muscles at h
  have h2 := List.mem_of_mem_take h
  obtain ⟨p, hp, rfl⟩ := List.mem_map.1 h2
  have := List.of_mem_filter hp
  simp at this
  exact this.2

theorem nameResolve_hasId {cat : Catalog} {nm : String} {n : Nat}
    (h : nameResolve cat nm = some n) : catHasId cat n = true := by
  unfold nameResolve at h
  by_cases hn : nm ≠ ""
  · rw [if_pos hn] at h
    cases hfn : id_for_name nm cat with
    | none => rw [hfn] at h; cases h
    | some j =>
      rw [hfn] at h
      by_cases h0 : j = 0
      · simp [h0] at h
      · simp [h0] at h
        rw [← h]
        exact id_for_name_hasId hfn
  · rw [if_neg hn] at h; cases h

theorem chosenC1_hasId {cat : Catalog} {ex : Exercise} {k : Nat}
    (h : chosenC1 cat ex = some k) : catHasId cat k = true := by
  unfold chosenC1 at h
  cases hex : ex.id with
  | none => rw [hex] at h; exact nameResolve_hasId h
  | some eid =>
    rw [hex] at h
    simp only [] at h
    by_cases hh : catHasId cat eid = true
    · rw [if_pos hh] at h
      cases h
      exact hh
    · rw [if_neg hh] at h
      exact nameResolve_hasId h

theorem resolveChosen_hasId {cat : Catalog} {m : List String} {u : List Nat}
    {ex : Exercise} {k : Nat} (h : resolveChosen cat m u ex = some k) :
    catHasId cat k = true := by
  unfold resolveChosen at h
  by_cases ht : truthyNat (chosenC1 cat ex) = true
  · rw [if_pos ht] at h
    exact chosenC1_hasId h
  · rw [if_neg ht] at h
    cases hp : pick_from_muscles m cat u 1 with
    | nil => rw [hp] at h; cases h
    | cons p rest =>
      rw [hp] at h
      cases h
      exact pick_hasId (hp ▸ List.mem_cons_self _ _)

theorem resolveChosen_pick_not_used {cat : Catalog} {m : List String}
    {u : List Nat} {ex : Exercise} {k : Nat}
    (hfalse : truthyNat (chosenC1 cat ex) = false)
    (h : resolveChosen cat m u ex = some k) : k ∉ u := by
  unfold resolveChosen at h
  rw [hfalse] at h
  simp at h
  cases hp : pick_from_muscles m cat u 1 with
  | nil => rw [hp] at h; cases h
  | cons p rest =>
    rw [hp] at h
    cases h
    exact pick_not_used (hp ▸ List.mem_cons_self _ _)

theorem staticStep_out_canon (cat : Catalog) (m : List String)
    {st : List Nat × List Exercise} (hst : ∀ ex ∈ st.2, canonEx cat ex)
    (ex : Exercise) : ∀ e ∈ (staticStep cat m st ex).2, canonEx cat e := by
  intro e he
  unfold staticStep at he
  by_cases ht : truthyNat (resolveChosen cat m st.1 ex) = true
  · rw [if_pos ht] at he
    rcases List.mem_append.1 he with hin | hnew
    · exact hst e hin
    · cases hres : resolveChosen cat m st.1 ex with
      | none => rw [hres] at ht; cases ht
      | some k =>
        rw [hres] at ht hnew
        have hk0 : k ≠ 0 := by
          intro h0
          rw [h0] at ht
          cases ht
        simp at hnew
        exact ⟨k, by rw [hnew], by rw [hnew], hk0, resolveChosen_hasId hres⟩
  · rw [if_neg ht] at he
    exact hst e he

theorem foldl_staticStep_all_canon (cat : Catalog) (m : List String) :
    ∀ (l : List Exercise) (st : List Nat × List Exercise),
      (∀ ex ∈ st.2, canonEx cat ex) →
      ∀ e ∈ (l.foldl (staticStep cat m) st).2, canonEx cat e := by
  intro l
  induction l with
  | nil => intro st hst e he; exact hst e he
  | cons ex rest ih =>
    intro st hst e he
    rw [List.foldl_cons] at he
    exact ih (staticStep cat m st ex) (staticStep_out_canon cat m hst ex) e he

theorem enforceDayStatic_canon (cat : Catalog) (day : Day) :
    ∀ e ∈ (enforceDayStatic cat day).exercises, canonEx cat e := by
  intro e he
  unfold enforceDayStatic at he
  exact foldl_staticStep_all_canon cat day.muscle_groups day.exercises ([], [])
    (by intro x hx; cases hx) e he

theorem enforceDayStatic_idem (cat : Catalog) (day : Day) :
    enforceDayStatic cat (enforceDayStatic cat day) = enforceDayStatic cat day := by
  generalize hD : enforceDayStatic cat day = D
  have hcanon : ∀ e ∈ D.exercises, canonEx cat e := hD ▸ enforceDayStatic_canon cat day
  unfold enforceDayStatic
  rw [foldl_staticStep_canon cat D.muscle_groups D.exercises hcanon [] []]
  simp

theorem alGet_alSet_self {κ α : Type} [DecidableEq κ] (l : List (κ × α)) (k : κ) (v : α) :
    alGet (alSet l k v) k = some v := by
  induction l with
  | nil => simp [alSet, alGet]
  | cons hd t ih =>
    obtain ⟨k1, w⟩ := hd
    by_cases hk : k1 = k
    · simp [alSet, alGet, hk]
    · simp [alSet, alGet, hk, ih]

theorem alGet_alSet_ne {κ α : Type} [DecidableEq κ] (l : List (κ × α)) {k k2 : κ} (v : α)
    (hne : k ≠ k2) : alGet (alSet l k v) k2 = alGet l k2 := by
  induction l with
  | nil => simp [alSet, alGet, hne]
  | cons hd t ih =>
    obtain ⟨k1, w⟩ := hd
    by_cases hk : k1 = k
    · subst hk
      simp [alSet, alGet, hne]
    · by_cases hk2 : k1 = k2
      · simp [alSet, alGet, hk, hk2, Ne.symm hne]
      · simp [alSet, alGet, hk, hk2, ih]

theorem alSet_self_of_get {κ α : Type} [DecidableEq κ] {l : List (κ × α)} {k : κ} {v : α}
    (h : alGet l k = some v) : alSet l k v = l := by
  induction l with
  | nil => cases h
  | cons hd t ih =>
    obtain ⟨k1, w⟩ := hd
    by_cases hk : k1 = k
    · rw [alGet] at h
      rw [if_pos hk] at h
      cases h
      simp [alSet, hk]
    · rw [alGet] at h
      rw [if_neg hk] at h
      simp [alSet, hk, ih h]

theorem keysOf_alSet_of_mem {κ α : Type} [DecidableEq κ] {l : List (κ × α)} {k : κ} (v : α)
    (h : (alGet l k).isSome = true) : keysOf (alSet l k v) = keysOf l := by
  induction l with
  | nil => simp [alGet] at h
  | cons hd t ih =>
    obtain ⟨k1, w⟩ := hd
    by_cases hk : k1 = k
    · simp [alSet, keysOf, hk]
    · rw [alGet, if_neg hk] at h
      simp [alSet, keysOf, hk] at ih ⊢
      exact ih h

theorem alGet_isSome_alSet {κ α : Type} [DecidableEq κ] (l : List (κ × α)) (k k2 : κ) (v : α)
    (h : (alGet l k2).isSome = true) : (alGet (alSet l k v) k2).isSome = true := by
  by_cases hk : k = k2
  · subst hk
    rw [alGet_alSet_self]
    rfl
  · rw [alGet_alSet_ne l v hk]
    exact h

theorem foldl_staticDayWrite_preserve (cat : Catalog) :
    ∀ (ks : List String) (ds : List (String × Day)) (k : String), k ∉ ks →
      alGet (ks.foldl (staticDayWrite cat) ds) k = alGet ds k := by
  intro ks
  induction ks with
  | nil => intro ds k _; rfl
  | cons d rest ih =>
    intro ds k hk
    rw [List.foldl_cons]
    rw [ih (staticDayWrite cat ds d) k (fun h => hk (List.mem_cons_of_mem d h))]
    exact alGet_alSet_ne ds _ (fun h => hk (h ▸ List.mem_cons_self d rest))

theorem foldl_staticDayWrite_shape (cat : Catalog) :
    ∀ (ks : List String), ks.Nodup →
      ∀ (ds : List (String × Day)) (d : String), d ∈ ks →
        ∃ day0, alGet (ks.foldl (staticDayWrite cat) ds) d = some (enforceDayStatic cat day0) := by
  intro ks
  induction ks with
  | nil => intro _ ds d hd; cases hd
  | cons k rest ih =>
    intro hnd ds d hd
    rw [List.foldl_cons]
    rcases List.mem_cons.1 hd with rfl | hmem
    · refine ⟨(alGet ds d).getD emptyDay, ?_⟩
      rw [foldl_staticDayWrite_preserve cat rest _ d (List.Nodup.not_mem hnd)]
      exact alGet_alSet_self ds d _
    · exact ih (List.Nodup.of_cons hnd) (staticDayWrite cat ds k) d hmem

theorem foldl_staticDayWrite_fix (cat : Catalog) :
    ∀ (ks : List String) (ds : List (String × Day)),
      (∀ d ∈ ks, ∃ day, alGet ds d = some day ∧ enforceDayStatic cat day = day) →
      ks.foldl (staticDayWrite cat) ds = ds := by
  intro ks
  induction ks with
  | nil => intro ds _; rfl
  | cons k rest ih =>
    intro ds hfix
    obtain ⟨day, hget, hfixday⟩ := hfix k (List.mem_cons_self k rest)
    rw [List.foldl_cons]
    have hstep : staticDayWrite cat ds k = ds := by
      unfold staticDayWrite
      rw [hget]
      simp only [Option.getD_some]
      rw [hfixday]
      exact alSet_self_of_get hget
    rw [hstep]
    exact ih ds (fun d hd => hfix d (List.mem_cons_of_mem k hd))

theorem foldl_staticDayWrite_keys (cat : Catalog) :
    ∀ (ks : List String) (ds : List (String × Day)),
      (∀ d ∈ ks, (alGet ds d).isSome = true) →
      keysOf (ks.foldl (staticDayWrite cat) ds) = keysOf ds := by
  intro ks
  induction ks with
  | nil => intro ds _; rfl
  | cons k rest ih =>
    intro ds hks
    rw [List.foldl_cons]
    have hkeys1 : keysOf (staticDayWrite cat ds k) = keysOf ds :=
      keysOf_alSet_of_mem _ (hks k (List.mem_cons_self k rest))
    rw [ih (staticDayWrite cat ds k)
        (fun d hd => alGet_isSome_alSet ds k d _ (hks d (List.mem_cons_of_mem k hd))), hkeys1]

theorem static_gate_idem (cat : Catalog) (tpl : Template) :
    enforce_catalog_on_template_db cat (enforce_catalog_on_template_db cat tpl) =
      enforce_catalog_on_template_db cat tpl := by
  unfold enforce_catalog_on_template_db
  simp only []
  congr 1
  apply foldl_staticDayWrite_fix
  intro d hd
  obtain ⟨day0, hday0⟩ := foldl_staticDayWrite_shape cat DAYS6 (by decide) tpl.days d hd
  exact ⟨enforceDayStatic cat day0, hday0, enforceDayStatic_idem cat day0⟩

theorem catKeys_hasId {cat : Catalog} {k : Nat} (h : k ∈ catKeys cat) :
    catHasId cat k = true := by
  obtain ⟨p, hp, rfl⟩ := List.mem_map.1 h
  exact alGet_isSome_of_mem hp

theorem dynInv_nil (cat : Catalog) : dynInv cat [] [] := by
  refine ⟨List.nodup_nil, rfl, ?_, ?_, ?_, ?_⟩ <;> simp [exIds]

theorem exIds_append_entry (out : List Exercise) (k : Nat) (nm : String)
    (s : Option Nat) (r : Option Reps) (nt : Option String) :
    exIds (out ++ [⟨some k, nm, s, r, nt⟩]) = exIds out ++ [k] := by
  simp [exIds]

theorem dynInv_extend {cat : Catalog} {du : List Nat} {out : List Exercise}
    (hinv : dynInv cat du out) {k : Nat} (hknew : k ∉ du)
    (hkcat : catHasId cat k = true) (nm : String) (s : Option Nat)
    (r : Option Reps) (nt : Option String) :
    dynInv cat (du.insert k) (out ++ [⟨some k, nm, s, r, nt⟩]) := by
  obtain ⟨hnd, hlen, hidnd, hsub, hducat, hval⟩ := hinv
  rw [List.insert_of_not_mem hknew]
  refine ⟨List.nodup_cons.2 ⟨hknew, hnd⟩, by simp [hlen], ?_, ?_, ?_, ?_⟩
  · rw [exIds_append_entry]
    rw [List.nodup_append]
    refine ⟨hidnd, List.nodup_singleton k, ?_⟩
    intro x hx
    simp only [List.mem_singleton]
    intro hxk
    exact hknew (hxk ▸ hsub x hx)
  · intro j hj
    rw [exIds_append_entry] at hj
    rcases List.mem_append.1 hj with hj | hj
    · exact List.mem_cons_of_mem k (hsub j hj)
    · simp at hj
      simp [hj]
  · intro j hj
    rcases List.mem_cons.1 hj with rfl | hj
    · exact hkcat
    · exact hducat j hj
  · intro ex hex
    rcases List.mem_append.1 hex with hex | hex
    · exact hval ex hex
    · simp at hex
      exact ⟨k, by simp [hex], hkcat⟩

theorem dynStep_cases (cat : Catalog) (m : List String) (g du : List Nat)
    (out : List Exercise) (ex : Exercise) :
    dynStep cat m (g, du, out) ex = (g, du, out) ∨
    ∃ k, resolveChosen cat m (g ++ du) ex = some k ∧ k ∉ du ∧ k ≠ 0 ∧
      dynStep cat m (g, du, out) ex =
        (g.insert k, du.insert k,
         out ++ [⟨some k, catName cat k, setsOrDefault 3 ex.sets,
                  repsOrDefault 10 ex.reps, ex.note⟩]) := by
  by_cases ht : truthyNat (resolveChosen cat m (g ++ du) ex) = true
  · cases hres : resolveChosen cat m (g ++ du) ex with
    | none => rw [hres] at ht; cases ht
    | some k =>
      rw [hres] at ht
      have hk0 : k ≠ 0 := by
        intro h0
        rw [h0] at ht
        cases ht
      by_cases hmem : k ∈ du
      · left
        simp [dynStep, hres, ht, hmem]
      · right
        refine ⟨k, rfl, hmem, hk0, ?_⟩
        simp [dynStep, hres, ht, hmem]
  · left
    simp [dynStep]
    intro hcon
    exact absurd hcon ht

theorem dynStep_inv (cat : Catalog) (m : List String) {g du : List Nat}
    {out : List Exercise} (hinv : dynInv cat du out) (ex : Exercise) :
    dynInv cat (dynStep cat m (g, du, out) ex).2.1 (dynStep cat m (g, du, out) ex).2.2 := by
  rcases dynStep_cases cat m g du out ex with heq | ⟨k, hres, hmem, hk0, heq⟩
  · rw [heq]
    exact hinv
  · rw [heq]
    exact dynInv_extend hinv hmem (resolveChosen_hasId hres) _ _ _ _

theorem dynFold_inv (cat : Catalog) (m : List String) :
    ∀ (l : List Exercise) (g du : List Nat) (out : List Exercise),
      dynInv cat du out →
      dynInv cat ((l.foldl (dynStep cat m) (g, du, out)).2.1)
        ((l.foldl (dynStep cat m) (g, du, out)).2.2) := by
  intro l
  induction l with
  | nil => intro g du out h; exact h
  | cons ex rest ih =>
    intro g du out h
    rw [List.foldl_cons]
    have hstep := dynStep_inv cat m (g := g) h ex
    have : dynStep cat m (g, du, out) ex =
        ((dynStep cat m (g, du, out) ex).1, (dynStep cat m (g, du, out) ex).2.1,
         (dynStep cat m (g, du, out) ex).2.2) := rfl
    rw [this]
    exact ih _ _ _ hstep

theorem dynFallbackId_spec {cat : Catalog} {du : List Nat} {k : Nat}
    (h : dynFallbackId cat du = some k) :
    catHasId cat k = true ∧ k ∉ du := by
  unfold dynFallbackId at h
  have hmem := List.mem_of_find?_eq_some h
  have hpred := List.find?_some h
  simp at hpred
  exact ⟨catKeys_hasId hmem, hpred⟩

theorem dynFallbackId_none {cat : Catalog} {du : List Nat}
    (h : dynFallbackId cat du = none) : ∀ k ∈ catKeys cat, k ∈ du := by
  intro k hk
  unfold dynFallbackId at h
  have := List.find?_eq_none.1 h k hk
  simpa using this

theorem dynTopId_spec {cat : Catalog} {m : List String} {g du : List Nat} {k : Nat}
    (h : dynTopId cat m g du = some k) : catHasId cat k = true ∧ k ∉ du := by
  unfold dynTopId at h
  cases hp : pick_from_muscles (if m.isEmpty then ["full body"] else m) cat (g ++ du) 1 with
  | nil =>
    rw [hp] at h
    exact dynFallbackId_spec h
  | cons p rest =>
    rw [hp] at h
    dsimp only at h
    by_cases hv : catHasId cat p = true
    · rw [if_pos hv] at h
      cases h
      constructor
      · exact hv
      · intro hcon
        exact pick_not_used (hp ▸ List.mem_cons_self _ _)
          (List.mem_append.2 (Or.inr hcon))
    · rw [if_neg hv] at h
      exact dynFallbackId_spec h

theorem length_le_of_nodup_subset {l1 l2 : List Nat} (hnd : l1.Nodup)
    (hsub : l1 ⊆ l2) : l1.length ≤ l2.length :=
  (List.subperm_of_subset hnd hsub).length_le

theorem dynTopId_isSome {cat : Catalog} {m : List String} {g du : List Nat}
    {out : List Exercise} (hk : (catKeys cat).Nodup)
    (hbig : 6 ≤ (catKeys cat).length) (hinv : dynInv cat du out)
    (hlen : out.length < 6) : (dynTopId cat m g du).isSome = true := by
  cases h : dynTopId cat m g du with
  | some k => rfl
  | none =>
    exfalso
    unfold dynTopId at h
    have hfb : dynFallbackId cat du = none := by
      cases hp : pick_from_muscles (if m.isEmpty then ["full body"] else m) cat (g ++ du) 1 with
      | nil => rw [hp] at h; exact h
      | cons p rest =>
        rw [hp] at h
        dsimp only at h
        have hv : catHasId cat p = true :=
          pick_hasId (hp ▸ List.mem_cons_self _ _)
        rw [if_pos hv] at h
        cases h
    have hsub : catKeys cat ⊆ du := fun k hk2 => dynFallbackId_none hfb k hk2
    have hle := length_le_of_nodup_subset hk hsub
    obtain ⟨hnd, hdlen, _⟩ := hinv
    omega

theorem dynTopUp_spec (cat : Catalog) (m : List String)
    (hk : (catKeys cat).Nodup) (hbig : 6 ≤ (catKeys cat).length) :
    ∀ (fuel : Nat) (g du : List Nat) (out : List Exercise),
      dynInv cat du out → 6 - out.length ≤ fuel →
      dynInv cat (dynTopUp cat m fuel g du out).2.1 (dynTopUp cat m fuel g du out).2.2 ∧
      (dynTopUp cat m fuel g du out).2.2.length = max out.length 6 := by
  intro fuel
  induction fuel with
  | zero =>
    intro g du out hinv hfuel
    have h6 : 6 ≤ out.length := by omega
    constructor
    · exact hinv
    · show out.length = max out.length 6
      omega
  | succ n ih =>
    intro g du out hinv hfuel
    by_cases hlen : out.length < 6
    · have hsome := dynTopId_isSome (m := m) (g := g) hk hbig hinv hlen
      cases hid : dynTopId cat m g du with
      | none => rw [hid] at hsome; cases hsome
      | some k =>
        obtain ⟨hkcat, hknew⟩ := dynTopId_spec hid
        have hinv2 := dynInv_extend hinv hknew hkcat (catName cat k) (some 3)
          (some (Reps.num 10)) none
        have hstep : dynTopUp cat m (n + 1) g du out =
            dynTopUp cat m n (g.insert k) (du.insert k)
              (out ++ [⟨some k, catName cat k, some 3, some (Reps.num 10), none⟩]) := by
          conv_lhs => unfold dynTopUp
          rw [if_pos hlen, hid]
        rw [hstep]
        have := ih (g.insert k) (du.insert k)
          (out ++ [⟨some k, catName cat k, some 3, some (Reps.num 10), none⟩])
          hinv2 (by simp; omega)
        obtain ⟨h1, h2⟩ := this
        refine ⟨h1, ?_⟩
        rw [h2]
        simp only [List.length_append, List.length_cons, List.length_nil]
        omega
    · have hstop : dynTopUp cat m (n + 1) g du out = (g, du, out) := by
        unfold dynTopUp
        rw [if_neg hlen]
      rw [hstop]
      refine ⟨hinv, ?_⟩
      show out.length = max out.length 6
      omega

theorem appendBasics_of_ge {out : List Exercise} (h : 3 ≤ out.length) :
    appendBasics out = out := by
  unfold appendBasics
  rw [if_neg (by omega)]

theorem dynProcessDay_spec (cat : Catalog) (hk : (catKeys cat).Nodup)
    (hbig : 6 ≤ (catKeys cat).length) (g : List Nat) (day : Day) :
    6 ≤ ((dynProcessDay cat g day).1).exercises.length ∧
    ((dynProcessDay cat g day).1).exercises.length ≤ 8 ∧
    (∀ ex ∈ ((dynProcessDay cat g day).1).exercises,
      ∃ k, ex.id = some k ∧ catHasId cat k = true) ∧
    (exIds ((dynProcessDay cat g day).1).exercises).Nodup := by
  have hinv1 := dynFold_inv cat day.muscle_groups day.exercises g [] [] (dynInv_nil cat)
  have hspec := dynTopUp_spec cat day.muscle_groups hk hbig 20
    (day.exercises.foldl (dynStep cat day.muscle_groups) (g, [], [])).1
    (day.exercises.foldl (dynStep cat day.muscle_groups) (g, [], [])).2.1
    (day.exercises.foldl (dynStep cat day.muscle_groups) (g, [], [])).2.2
    hinv1 (by omega)
  obtain ⟨hinv2, hlen2⟩ := hspec
  set st2 := dynTopUp cat day.muscle_groups 20
    (day.exercises.foldl (dynStep cat day.muscle_groups) (g, [], [])).1
    (day.exercises.foldl (dynStep cat day.muscle_groups) (g, [], [])).2.1
    (day.exercises.foldl (dynStep cat day.muscle_groups) (g, [], [])).2.2 with hst2
  have h6 : 6 ≤ st2.2.2.length := by
    rw [hlen2]
    omega
  have hbas : appendBasics st2.2.2 = st2.2.2 := appendBasics_of_ge (by omega)
  have hexe : ((dynProcessDay cat g day).1).exercises =
      (if st2.2.2.length > 8 then st2.2.2.take 8 else st2.2.2) := by
    unfold dynProcessDay
    simp only [← hst2, hbas]
  obtain ⟨_, _, hidnd, _, _, hval⟩ := hinv2
  by_cases h8 : st2.2.2.length > 8
  · rw [hexe, if_pos h8]
    refine ⟨by simp [List.length_take]; omega, by simp [List.length_take], ?_, ?_⟩
    · intro ex hex
      exact hval ex (List.mem_of_mem_take hex)
    · exact ((List.take_sublist 8 st2.2.2).filterMap _).nodup hidnd
  · rw [hexe, if_neg h8]
    exact ⟨h6, by omega, hval, hidnd⟩

theorem dynDayWrite_keys (cat : Catalog) (st : List (String × Day) × List Nat)
    (nm : String) : keysOf (dynDayWrite cat st nm).1 = keysOf st.1 := by
  unfold dynDayWrite
  cases hget : alGet st.1 (dayKeyOf nm) with
  | none => rfl
  | some day0 =>
    simp only []
    exact keysOf_alSet_of_mem _ (by rw [hget]; rfl)

theorem dynFold_keys (cat : Catalog) :
    ∀ (names : List String) (st : List (String × Day) × List Nat),
      keysOf (names.foldl (dynDayWrite cat) st).1 = keysOf st.1 := by
  intro names
  induction names with
  | nil => intro st; rfl
  | cons nm rest ih =>
    intro st
    rw [List.foldl_cons, ih, dynDayWrite_keys]

theorem dynDayWrite_get (cat : Catalog) (st : List (String × Day) × List Nat)
    (nm : String) (key : String) (day : Day)
    (h : alGet (dynDayWrite cat st nm).1 key = some day) :
    alGet st.1 key = some day ∨ ∃ g day0, day = (dynProcessDay cat g day0).1 := by
  unfold dynDayWrite at h
  cases hget : alGet st.1 (dayKeyOf nm) with
  | none =>
    rw [hget] at h
    exact Or.inl h
  | some day0 =>
    rw [hget] at h
    simp only [] at h
    by_cases hkey : dayKeyOf nm = key
    · subst hkey
      rw [alGet_alSet_self] at h
      exact Or.inr ⟨st.2, day0, (Option.some_injective _ h).symm⟩
    · rw [alGet_alSet_ne _ _ hkey] at h
      exact Or.inl h

theorem dynFold_get (cat : Catalog) :
    ∀ (names : List String) (st : List (String × Day) × List Nat)
      (key : String) (day : Day),
      alGet (names.foldl (dynDayWrite cat) st).1 key = some day →
      alGet st.1 key = some day ∨ ∃ g day0, day = (dynProcessDay cat g day0).1 := by
  intro names
  induction names with
  | nil => intro st key day h; exact Or.inl h
  | cons nm rest ih =>
    intro st key day h
    rw [List.foldl_cons] at h
    rcases ih (dynDayWrite cat st nm) key day h with h2 | h2
    · exact dynDayWrite_get cat st nm key day h2
    · exact Or.inr h2

theorem dynFold_get_preserve (cat : Catalog) :
    ∀ (names : List String) (st : List (String × Day) × List Nat) (key : String),
      (∀ nm ∈ names, dayKeyOf nm ≠ key) →
      alGet (names.foldl (dynDayWrite cat) st).1 key = alGet st.1 key := by
  intro names
  induction names with
  | nil => intro st key _; rfl
  | cons nm rest ih =>
    intro st key hne
    rw [List.foldl_cons]
    rw [ih (dynDayWrite cat st nm) key (fun n hn => hne n (List.mem_cons_of_mem nm hn))]
    unfold dynDayWrite
    cases hget : alGet st.1 (dayKeyOf nm) with
    | none => rfl
    | some day0 =>
      simp only []
      exact alGet_alSet_ne _ _ (hne nm (List.mem_cons_self nm rest))

theorem dynFold_get_isSome (cat : Catalog) (st : List (String × Day) × List Nat)
    (names : List String) (key : String) (h : (alGet st.1 key).isSome = true) :
    (alGet (names.foldl (dynDayWrite cat) st).1 key).isSome = true := by
  induction names generalizing st with
  | nil => exact h
  | cons nm rest ih =>
    rw [List.foldl_cons]
    apply ih
    unfold dynDayWrite
    cases hget : alGet st.1 (dayKeyOf nm) with
    | none => exact h
    | some day0 =>
      simp only []
      exact alGet_isSome_alSet _ _ _ _ h

theorem dynFold_processed (cat : Catalog) :
    ∀ (names : List String) (st : List (String × Day) × List Nat) (key : String),
      (∃ nm ∈ names, dayKeyOf nm = key) → (alGet st.1 key).isSome = true →
      ∃ g day0, alGet (names.foldl (dynDayWrite cat) st).1 key =
        some (dynProcessDay cat g day0).1 := by
  intro names
  induction names with
  | nil => intro st key h _; obtain ⟨nm, hmem, _⟩ := h; cases hmem
  | cons nm1 rest ih =>
    intro st key hex hsome
    rw [List.foldl_cons]
    by_cases hrest : ∃ nm ∈ rest, dayKeyOf nm = key
    · apply ih (dynDayWrite cat st nm1) key hrest
      unfold dynDayWrite
      cases hget : alGet st.1 (dayKeyOf nm1) with
      | none => exact hsome
      | some day0 =>
        simp only []
        exact alGet_isSome_alSet _ _ _ _ hsome
    · obtain ⟨nm, hmem, hkey⟩ := hex
      rcases List.mem_cons.1 hmem with rfl | hmem2
      · subst hkey
        rw [dynFold_get_preserve cat rest _ (dayKeyOf nm)
            (fun n hn hc => hrest ⟨n, hn, hc⟩)]
        obtain ⟨day0, hday0⟩ := Option.isSome_iff_exists.1 hsome
        unfold dynDayWrite
        rw [hday0]
        simp only []
        exact ⟨st.2, day0, alGet_alSet_self _ _ _⟩
      · exact absurd ⟨nm, hmem2, hkey⟩ hrest

theorem isInfC_nil (l : Chars) : isInfC [] l = true := by
  cases l <;> simp [isInfC, isPrefC]

/-- C5 amended: reflexivity holds for every string, empty included:
`calculate_similarity(x, x) == 1.0`; symmetry fails (see the
counterexample). -/
theorem C5_amended_self_similarity (x : String) : calculate_similarity x x = 1 := by
  simp [calculate_similarity]

/-- C5 counterexample: the token-overlap stage is directional, so
similarity is not symmetric: `calculate_similarity("a a", "a b")` is
0.9 while `calculate_similarity("a b", "a a")` is 0.5. -/
theorem C5_counterexample :
    calculate_similarity "a a" "a b" ≠ calculate_similarity "a b" "a a" := by
  with_unfolding_all decide

/-- C6 counterexample: `calculate_similarity("", "")` is 1.0, not the
claimed 0.0. -/
theorem C6_counterexample : calculate_similarity "" "" ≠ 0 := by
  with_unfolding_all decide

/-- C6 amended: the function is total (a terminating function of its
two string arguments), but on empty inputs it does not return 0.0: both
sides empty (after cleaning) give 1.0, and an empty side against a
string with a non-space character gives 0.85 via the substring rule. -/
theorem C6_amended_empty_inputs :
    calculate_similarity "" "" = 1 ∧
    ∀ s : String, dropSpaces (pyCleanC s) ≠ [] →
      calculate_similarity "" s = 17/20 ∧ calculate_similarity s "" = 17/20 := by
  refine ⟨by with_unfolding_all decide, fun s hs => ?_⟩
  have h1 : pyCleanC s ≠ [] := fun h => hs (by rw [h]; rfl)
  constructor
  · simp only [calculate_similarity]
    rw [show pyCleanC "" = ([] : Chars) from rfl]
    rw [if_neg (fun h => h1 h.symm)]
    rw [show dropSpaces ([] : Chars) = [] from rfl]
    rw [if_neg (fun h => hs h.symm)]
    rw [isInfC_nil, Bool.true_or, if_pos rfl]
    norm_num
  · simp only [calculate_similarity]
    rw [show pyCleanC "" = ([] : Chars) from rfl]
    rw [if_neg h1]
    rw [show dropSpaces ([] : Chars) = [] from rfl]
    rw [if_neg hs]
    rw [isInfC_nil, Bool.or_true, if_pos rfl]
    norm_num

theorem C6_witness :
    (dropSpaces (pyCleanC "abc") ≠ [] ) ∧
      calculate_similarity "" "abc" = 17/20 ∧ calculate_similarity "abc" "" = 17/20 :=
  ⟨by with_unfolding_all decide, C6_amended_empty_inputs.2 "abc" (by with_unfolding_all decide)⟩

theorem alGet_isSome_iff_mem {κ α : Type} [DecidableEq κ] (l : List (κ × α)) (k : κ) :
    (alGet l k).isSome = true ↔ k ∈ keysOf l := by
  induction l with
  | nil => simp [alGet, keysOf]
  | cons hd t ih =>
    obtain ⟨k1, v⟩ := hd
    by_cases hk : k1 = k
    · simp [alGet, keysOf, hk]
    · rw [show alGet ((k1, v) :: t) k = alGet t k from by simp [alGet, hk]]
      rw [ih]
      simp [keysOf, Ne.symm hk]

/-- C1: the static gate guarantees only catalog membership on the
Monday-Saturday days it processes (not the 6-8 bounds); the dynamic gate,
on a catalog with at least six distinct ids, leaves every processed day
with 6-8 exercises whose ids are all catalog keys. -/
theorem C1_amended_gate_bounds :
    (∀ (cat : Catalog) (tpl : Template), ∀ d ∈ DAYS6, ∀ day : Day,
      alGet (enforce_catalog_on_template_db cat tpl).days d = some day →
      ∀ ex ∈ day.exercises, ∃ k, ex.id = some k ∧ catHasId cat k = true) ∧
    (∀ (cat : Catalog) (tpl : Template) (names : List String),
      (catKeys cat).Nodup → 6 ≤ (catKeys cat).length →
      ∀ nm ∈ names, ∀ day : Day,
        alGet (enforce_catalog_on_template_db_dynamic cat tpl names).days
          (dayKeyOf nm) = some day →
        6 ≤ day.exercises.length ∧ day.exercises.length ≤ 8 ∧
        ∀ ex ∈ day.exercises, ∃ k, ex.id = some k ∧ catHasId cat k = true) := by
  constructor
  · intro cat tpl d hd day hday ex hex
    obtain ⟨day0, hday0⟩ := foldl_staticDayWrite_shape cat DAYS6 (by decide) tpl.days d hd
    unfold enforce_catalog_on_template_db at hday
    simp only [] at hday
    rw [hday0] at hday
    obtain rfl := Option.some_injective _ hday
    obtain ⟨k, hid, _, _, hhas⟩ := enforceDayStatic_canon cat day0 ex hex
    exact ⟨k, hid, hhas⟩
  · intro cat tpl names hnd hbig nm hnm day hday
    unfold enforce_catalog_on_template_db_dynamic at hday
    simp only [] at hday
    have hsome : (alGet tpl.days (dayKeyOf nm)).isSome = true := by
      rw [alGet_isSome_iff_mem]
      rw [← dynFold_keys cat names (tpl.days, [])]
      rw [← alGet_isSome_iff_mem]
      rw [hday]
      rfl
    obtain ⟨g, day0, hproc⟩ :=
      dynFold_processed cat names (tpl.days, []) (dayKeyOf nm) ⟨nm, hnm, rfl⟩ hsome
    rw [hproc] at hday
    obtain rfl := Option.some_injective _ hday
    obtain ⟨h1, h2, h3, _⟩ := dynProcessDay_spec cat hnd hbig g day0
    exact ⟨h1, h2, h3⟩

/-- C1 counterexample: the static gate keeps mondays 0-exercise day at
0 exercises, violating the claimed 6-exercise floor. -/
theorem C1_counterexample :
    ((alGet (enforce_catalog_on_template_db catBench tplEmptyMonday).days
        "monday").getD emptyDay).exercises.length = 0 := by
  with_unfolding_all decide

/-- Witness for C1: on a six-id catalog the dynamic gate leaves the
processed monday with between 6 and 8 exercises. -/
theorem C1_witness :
    ((catKeys cat6).Nodup ∧ 6 ≤ (catKeys cat6).length) ∧
    6 ≤ ((alGet (enforce_catalog_on_template_db_dynamic cat6 tplW ["Monday"]).days
          (dayKeyOf "Monday")).getD emptyDay).exercises.length ∧
    ((alGet (enforce_catalog_on_template_db_dynamic cat6 tplW ["Monday"]).days
          (dayKeyOf "Monday")).getD emptyDay).exercises.length ≤ 8 := by
  refine ⟨⟨by with_unfolding_all decide, by with_unfolding_all decide⟩, ?_⟩
  have h := C1_amended_gate_bounds.2 cat6 tplW ["Monday"]
    (by with_unfolding_all decide) (by with_unfolding_all decide)
    "Monday" (List.mem_singleton.2 rfl)
    ((alGet (enforce_catalog_on_template_db_dynamic cat6 tplW ["Monday"]).days
        (dayKeyOf "Monday")).getD emptyDay)
    (by with_unfolding_all decide)
  exact ⟨h.1, h.2.1⟩

/-- C2 counterexample: on a catalog containing the Python-falsy id 0 the
dynamic gate is not idempotent (the second run reorders the day). -/
theorem C2_counterexample :
    enforce_catalog_on_template_db_dynamic catC2
        (enforce_catalog_on_template_db_dynamic catC2 tplC2 ["Monday"]) ["Monday"] ≠
      enforce_catalog_on_template_db_dynamic catC2 tplC2 ["Monday"] := by
  with_unfolding_all decide

/-- C2 amended: the static Catalog Enforcement Gate is idempotent for
every catalog and template. -/
theorem C2_amended_static_idempotent (cat : Catalog) (tpl : Template) :
    enforce_catalog_on_template_db cat (enforce_catalog_on_template_db cat tpl) =
      enforce_catalog_on_template_db cat tpl := by
  unfold enforce_catalog_on_template_db
  simp only []
  congr 1
  apply foldl_staticDayWrite_fix
  intro d hd
  obtain ⟨day0, hday0⟩ := foldl_staticDayWrite_shape cat DAYS6 (by decide) tpl.days d hd
  exact ⟨enforceDayStatic cat day0, hday0, enforceDayStatic_idem cat day0⟩

theorem mem_insertDescBy {score : RemoveCand → ℚ} {x c : RemoveCand} :
    ∀ {l : List RemoveCand}, c ∈ insertDescBy score x l → c = x ∨ c ∈ l := by
  intro l
  induction l with
  | nil => intro h; simp [insertDescBy] at h; exact Or.inl h
  | cons y ys ih =>
    intro h
    unfold insertDescBy at h
    by_cases hs : score y < score x
    · rw [if_pos hs] at h
      rcases List.mem_cons.1 h with rfl | h2
      · exact Or.inl rfl
      · exact Or.inr h2
    · rw [if_neg hs] at h
      rcases List.mem_cons.1 h with rfl | h2
      · exact Or.inr (List.mem_cons_self _ _)
      · rcases ih h2 with h3 | h3
        · exact Or.inl h3
        · exact Or.inr (List.mem_cons_of_mem _ h3)

theorem mem_sortDescBy {score : RemoveCand → ℚ} {c : RemoveCand} :
    ∀ {l : List RemoveCand}, c ∈ sortDescBy score l → c ∈ l := by
  intro l
  induction l with
  | nil => intro h; cases h
  | cons x xs ih =>
    intro h
    unfold sortDescBy at h
    rcases mem_insertDescBy h with rfl | h2
    · exact List.mem_cons_self _ _
    · exact List.mem_cons_of_mem _ (ih h2)

/-- C4 amended: when no collected candidate reaches the 0.5 commit
threshold, handle_remove_exercise leaves the template untouched and
returns the `(None, None)` sentinel (its caller then falls back to the
language-model path instead of emitting a not-confident report). -/
theorem C4_amended_remove_sentinel (template : Template)
    (instruction instruction_lower : String)
    (h : ∀ c ∈ removeAllCandidates template instruction_lower.data,
      c.similarity < 1/2) :
    handle_remove_exercise template instruction instruction_lower = (none, none) := by
  unfold handle_remove_exercise
  by_cases hph : removePhrases instruction_lower.data = []
  · rw [if_pos hph]
  · rw [if_neg hph]
    cases hsort : sortDescBy candidateScore
        (removeAllCandidates template instruction_lower.data) with
    | nil => simp only [hsort]
    | cons best rest =>
      have hmem : best ∈ removeAllCandidates template instruction_lower.data :=
        mem_sortDescBy (hsort ▸ List.mem_cons_self best rest)
      simp only [hsort]
      rw [if_pos (h best hmem)]

/-- C4 counterexample: with no candidate at or above 0.5 the remove
operation returns the sentinel `(None, None)` - no template (equal to
the input or otherwise) and no not-confident report are returned. -/
theorem C4_counterexample :
    handle_remove_exercise tplRem "remove qqq" "remove qqq" = (none, none) := by
  with_unfolding_all decide

/-- Witness for C4 at a concrete template and instruction. -/
theorem C4_witness :
    (∀ c ∈ removeAllCandidates tplRem ("remove qqqq" : String).data,
      c.similarity < 1/2) ∧
    handle_remove_exercise tplRem "remove qqqq" "remove qqqq" = (none, none) :=
  ⟨by with_unfolding_all decide,
   C4_amended_remove_sentinel tplRem "remove qqqq" "remove qqqq"
     (by with_unfolding_all decide)⟩

theorem mem_collectCands {dayKey : String} {exs : List Exercise}
    {phrases : List Chars} {c : RemoveCand}
    (h : c ∈ collectCands dayKey exs phrases) : c.day = dayKey := by
  unfold collectCands at h
  obtain ⟨l, hl, hc⟩ := List.mem_flatten.1 h
  obtain ⟨ph, _, rfl⟩ := List.mem_map.1 hl
  obtain ⟨p, _, hp⟩ := List.mem_filterMap.1 hc
  by_cases hs : (3/10 : ℚ) < calculate_similarity ⟨ph⟩ ⟨lowerC p.2.name.data⟩
  · rw [if_pos hs] at hp
    cases hp
    rfl
  · rw [if_neg hs] at hp
    cases hp

theorem findTargetDayAux_mem {days : List (String × Day)} {il : Chars} :
    ∀ (ks : List String) (acc : Option String),
      (∀ s, acc = some s → s ∈ keysOf days) →
      ∀ s, findTargetDayAux days il ks acc = some s → s ∈ keysOf days := by
  intro ks
  induction ks with
  | nil =>
    intro acc hacc s hs
    exact hacc s hs
  | cons day rest ih =>
    intro acc hacc s hs
    unfold findTargetDayAux at hs
    by_cases hin : isInfC day.data il = true
    · rw [if_pos hin] at hs
      simp only [] at hs
      cases hf : days.find? (fun kd =>
          isInfC day.data (lowerC kd.1.data) || isInfC (lowerC kd.1.data) day.data) with
      | some kd =>
        rw [hf] at hs
        have hkd : kd.1 ∈ keysOf days :=
          List.mem_map.2 ⟨kd, List.mem_of_find?_eq_some hf, rfl⟩
        by_cases ht : truthyStr (some kd.1) = true
        · rw [if_pos ht] at hs
          cases hs
          exact hkd
        · rw [if_neg ht] at hs
          exact ih (some kd.1) (fun s2 hs2 => by cases hs2; exact hkd) s hs
      | none =>
        rw [hf] at hs
        by_cases ht : truthyStr acc = true
        · rw [if_pos ht] at hs
          exact hacc s hs
        · rw [if_neg ht] at hs
          exact ih acc hacc s hs
    · rw [if_neg hin] at hs
      exact ih acc hacc s hs

theorem removeAllCandidates_day_mem {template : Template} {il : Chars}
    {c : RemoveCand} (h : c ∈ removeAllCandidates template il) :
    c.day ∈ keysOf template.days := by
  unfold removeAllCandidates at h
  by_cases ht : truthyStr (findTargetDayAux template.days il removeDayKeywords none) = true
  · rw [if_pos ht] at h
    have hc := mem_collectCands h
    cases hf : findTargetDayAux template.days il removeDayKeywords none with
    | none => rw [hf] at ht; cases ht
    | some s =>
      have hmem := findTargetDayAux_mem removeDayKeywords none (fun _ h2 => by cases h2) s hf
      rw [hf] at hc
      simp at hc
      rw [hc]
      exact hmem
  · rw [if_neg ht] at h
    have haux : ∀ (l : List (String × Day)) (acc : List RemoveCand),
        (∀ c2 ∈ acc, c2.day ∈ keysOf template.days) →
        (∀ kd ∈ l, kd.1 ∈ keysOf template.days) →
        ∀ c2 ∈ l.foldl (fun acc2 kd =>
          acc2 ++ collectCands kd.1 kd.2.exercises (removePhrases il)) acc,
          c2.day ∈ keysOf template.days := by
      intro l
      induction l with
      | nil => intro acc hacc _ c2 hc2; exact hacc c2 hc2
      | cons kd rest ih =>
        intro acc hacc hl c2 hc2
        rw [List.foldl_cons] at hc2
        refine ih _ ?_ (fun kd2 h2 => hl kd2 (List.mem_cons_of_mem kd h2)) c2 hc2
        intro c3 hc3
        rcases List.mem_append.1 hc3 with h3 | h3
        · exact hacc c3 h3
        · rw [mem_collectCands h3]
          exact hl kd (List.mem_cons_self kd rest)
    exact haux template.days [] (fun _ h2 => by cases h2)
      (fun kd hkd => List.mem_map.2 ⟨kd, hkd, rfl⟩) c h

/-- Key preservation for the remove handlers commit path. -/
theorem handle_remove_keys {template : Template} {i il : String} {r : Template}
    {s : Option String} (h : handle_remove_exercise template i il = (some r, s)) :
    keysOf r.days = keysOf template.days := by
  unfold handle_remove_exercise at h
  by_cases hph : removePhrases il.data = []
  · rw [if_pos hph] at h
    cases h
  · rw [if_neg hph] at h
    cases hsort : sortDescBy candidateScore (removeAllCandidates template il.data) with
    | nil =>
      simp only [hsort] at h
      cases (Prod.mk.injEq .. ▸ h).1
    | cons best rest =>
      simp only [hsort] at h
      by_cases hlow : best.similarity < 1/2
      · rw [if_pos hlow] at h
        cases (Prod.mk.injEq .. ▸ h).1
      · rw [if_neg hlow] at h
        have hmem : best ∈ removeAllCandidates template il.data :=
          mem_sortDescBy (hsort ▸ List.mem_cons_self best rest)
        have hday := removeAllCandidates_day_mem hmem
        obtain ⟨hr, _⟩ := Prod.mk.injEq .. ▸ h
        obtain rfl := Option.some_injective _ hr.symm
        simp only []
        exact keysOf_alSet_of_mem _ ((alGet_isSome_iff_mem _ _).2 hday)

theorem keysOf_allDaysCommit (days : List (String × Day)) (eid : Nat) (en : String) :
    keysOf (allDaysCommit days eid en) = keysOf days := by
  unfold allDaysCommit keysOf
  rw [List.map_map]
  apply List.map_congr_left
  intro kd _
  by_cases hc : ¬ (kd.2.exercises.any (fun ex => ex.id == some eid)) = true ∧
      kd.2.exercises.length < 8
  · rw [Function.comp_apply, if_pos hc]
  · rw [Function.comp_apply, if_neg hc]

theorem alGet_allDaysCommit (days : List (String × Day)) (eid : Nat) (en : String)
    (key : String) (day : Day) (h : alGet (allDaysCommit days eid en) key = some day) :
    ∃ d0, alGet days key = some d0 ∧
      (day = d0 ∨ (¬ (d0.exercises.any (fun ex => ex.id == some eid)) = true ∧
        day = { d0 with exercises := d0.exercises ++
          [⟨some eid, en, some 3, some (Reps.num 10), none⟩] })) := by
  induction days with
  | nil => cases h
  | cons kd rest ih =>
    unfold allDaysCommit at h
    rw [List.map_cons] at h
    by_cases hc : ¬ (kd.2.exercises.any (fun ex => ex.id == some eid)) = true ∧
        kd.2.exercises.length < 8
    · rw [if_pos hc] at h
      rw [alGet] at h
      by_cases hk : kd.1 = key
      · rw [if_pos hk] at h
        refine ⟨kd.2, ?_, Or.inr ⟨hc.1, (Option.some_injective _ h).symm⟩⟩
        cases kd
        rw [alGet, if_pos hk]
      · rw [if_neg hk] at h
        obtain ⟨d0, hget, hd⟩ := ih h
        refine ⟨d0, ?_, hd⟩
        cases kd
        rw [alGet, if_neg hk]
        exact hget
    · rw [if_neg hc] at h
      rw [alGet] at h
      by_cases hk : kd.1 = key
      · rw [if_pos hk] at h
        refine ⟨kd.2, ?_, Or.inl (Option.some_injective _ h).symm⟩
        cases kd
        rw [alGet, if_pos hk]
      · rw [if_neg hk] at h
        obtain ⟨d0, hget, hd⟩ := ih h
        refine ⟨d0, ?_, hd⟩
        cases kd
        rw [alGet, if_neg hk]
        exact hget

/-- Any all-days early return of the pattern loop is an
`allDaysCommit` of the handed-in days. -/
theorem addPhase1Aux_inl (cat : Catalog) (days : List (String × Day)) (il : Chars) :
    ∀ (pats : List (Chars → Option (Chars × Chars))) (st : AddState)
      (x : List (String × Day) × String),
      addPhase1Aux cat days il pats st = .inl x →
      ∃ eid en, x = (allDaysCommit days eid en, en) := by
  intro pats
  induction pats with
  | nil => intro st x h; cases h
  | cons pat rest ih =>
    intro st x h
    unfold addPhase1Aux at h
    cases hp : pat il with
    | none =>
      rw [hp] at h
      exact ih st x h
    | some g =>
      rw [hp] at h
      dsimp only at h
      cases hstep : addPatStep cat days st g.1 g.2 with
      | commit eid en =>
        rw [hstep] at h
        cases h
        exact ⟨eid, en, rfl⟩
      | halt st2 =>
        rw [hstep] at h
        cases h
      | next st2 =>
        rw [hstep] at h
        exact ih st2 x h

/-- Key preservation for the add handler. -/
theorem handle_add_keys (template : Template) (instruction : String)
    (cat : Catalog) :
    keysOf (handle_specific_exercise_addition template instruction cat).1.days =
      keysOf template.days := by
  unfold handle_specific_exercise_addition
  cases hres : addResolve cat template.days (lowerC instruction.data) with
  | inl x =>
    simp only [hres]
    have hx : ∃ eid en, x = (allDaysCommit template.days eid en, en) := by
      unfold addResolve at hres
      cases h1 : addPhase1Aux cat template.days (lowerC instruction.data)
          addPatterns ⟨none, none, none⟩ with
      | inl y =>
        rw [h1] at hres
        cases hres
        exact addPhase1Aux_inl cat template.days (lowerC instruction.data)
          addPatterns ⟨none, none, none⟩ _ h1
      | inr st0 =>
        rw [h1] at hres
        cases hres
    obtain ⟨eid, en, rfl⟩ := hx
    exact keysOf_allDaysCommit template.days eid en
  | inr st =>
    simp only [hres]
    by_cases h1 : ¬ truthyStr st.target = true
    · rw [if_pos h1]
    · rw [if_neg h1]
      by_cases h2 : ¬ truthyStr st.exName = true ∨ ¬ truthyNat st.exId = true
      · rw [if_pos h2]
      · rw [if_neg h2]
        by_cases h3 : ¬ (alGet template.days (st.target.getD "")).isSome = true
        · rw [if_pos h3]
        · rw [if_neg h3]
          by_cases h4 : 8 ≤ ((alGet template.days (st.target.getD "")).getD emptyDay).exercises.length
          · rw [if_pos h4]
          · rw [if_neg h4]
            by_cases h5 : (((alGet template.days (st.target.getD "")).getD emptyDay).exercises.any
                (fun ex => ex.id == st.exId)) = true
            · rw [if_pos h5]
            · rw [if_neg h5]
              simp only []
              exact keysOf_alSet_of_mem _ (not_not.mp h3)

/-- C8: the add handler performs no mutation when the resolution state
leaves the day untruthy, the exercise untruthy, or the resolved day
already holds 8 or more exercises. -/
theorem C8_add_rejects_without_mutation (template : Template)
    (instruction : String) (cat : Catalog) (st : AddState)
    (hres : addResolve cat template.days (lowerC instruction.data) = .inr st)
    (hrej : truthyStr st.target = false ∨ truthyStr st.exName = false ∨
      truthyNat st.exId = false ∨
      (alGet template.days (st.target.getD "")).isSome = false ∨
      8 ≤ ((alGet template.days (st.target.getD "")).getD emptyDay).exercises.length) :
    (handle_specific_exercise_addition template instruction cat).1 = template := by
  unfold handle_specific_exercise_addition
  simp only [hres]
  by_cases h1 : ¬ truthyStr st.target = true
  · rw [if_pos h1]
  · rw [if_neg h1]
    by_cases h2 : ¬ truthyStr st.exName = true ∨ ¬ truthyNat st.exId = true
    · rw [if_pos h2]
    · rw [if_neg h2]
      by_cases h3 : ¬ (alGet template.days (st.target.getD "")).isSome = true
      · rw [if_pos h3]
      · rw [if_neg h3]
        by_cases h4 : 8 ≤ ((alGet template.days (st.target.getD "")).getD
            emptyDay).exercises.length
        · rw [if_pos h4]
        · exfalso
          push_neg at h1 h2
          rcases hrej with h | h | h | h | h
          · rw [h1] at h; cases h
          · rw [h2.1] at h; cases h
          · rw [h2.2] at h; cases h
          · rw [not_not.mp h3] at h; cases h
          · exact h4 h

theorem not_any_id_not_mem {exs : List Exercise} {k : Nat}
    (h : (exs.any (fun ex => ex.id == some k)) = false) : k ∉ exIds exs := by
  intro hmem
  obtain ⟨ex, hex, hid⟩ := List.mem_filterMap.1 hmem
  have := List.any_eq_false.mp h ex hex
  simp [hid] at this

theorem nodup_append_single {l : List Nat} {k : Nat} (h : l.Nodup)
    (hk : k ∉ l) : (l ++ [k]).Nodup := by
  rw [List.nodup_append]
  refine ⟨h, List.nodup_singleton k, ?_⟩
  intro x hx
  simp only [List.mem_singleton]
  intro hxk
  exact hk (hxk ▸ hx)

/-- Within-day id distinctness preservation for the add handler. -/
theorem handle_add_nodup (template : Template) (instruction : String)
    (cat : Catalog)
    (hin : ∀ key day, alGet template.days key = some day →
      (exIds day.exercises).Nodup) :
    ∀ key day,
      alGet (handle_specific_exercise_addition template instruction cat).1.days
        key = some day → (exIds day.exercises).Nodup := by
  intro key day h
  unfold handle_specific_exercise_addition at h
  cases hres : addResolve cat template.days (lowerC instruction.data) with
  | inl x =>
    simp only [hres] at h
    have hx : ∃ eid en, x = (allDaysCommit template.days eid en, en) := by
      unfold addResolve at hres
      cases h1 : addPhase1Aux cat template.days (lowerC instruction.data)
          addPatterns ⟨none, none, none⟩ with
      | inl y =>
        rw [h1] at hres
        cases hres
        exact addPhase1Aux_inl cat template.days (lowerC instruction.data)
          addPatterns ⟨none, none, none⟩ _ h1
      | inr st0 =>
        rw [h1] at hres
        cases hres
    obtain ⟨eid, en, rfl⟩ := hx
    obtain ⟨d0, hget, hcase⟩ := alGet_allDaysCommit template.days eid en key day h
    rcases hcase with h6 | ⟨hno, h6⟩
    · rw [h6]
      exact hin key d0 hget
    · rw [h6]
      simp only [exIds_append_entry]
      exact nodup_append_single (hin key d0 hget)
        (not_any_id_not_mem (eq_false_of_ne_true hno))
  | inr st =>
    simp only [hres] at h
    by_cases h1 : ¬ truthyStr st.target = true
    · rw [if_pos h1] at h
      exact hin key day h
    · rw [if_neg h1] at h
      by_cases h2 : ¬ truthyStr st.exName = true ∨ ¬ truthyNat st.exId = true
      · rw [if_pos h2] at h
        exact hin key day h
      · rw [if_neg h2] at h
        by_cases h3 : ¬ (alGet template.days (st.target.getD "")).isSome = true
        · rw [if_pos h3] at h
          exact hin key day h
        · rw [if_neg h3] at h
          by_cases h4 : 8 ≤ ((alGet template.days (st.target.getD "")).getD
              emptyDay).exercises.length
          · rw [if_pos h4] at h
            exact hin key day h
          · rw [if_neg h4] at h
            by_cases h5 : (((alGet template.days (st.target.getD "")).getD
                emptyDay).exercises.any (fun ex => ex.id == st.exId)) = true
            · rw [if_pos h5] at h
              exact hin key day h
            · rw [if_neg h5] at h
              simp only [] at h
              by_cases hkey : st.target.getD "" = key
              · subst hkey
                rw [alGet_alSet_self] at h
                obtain rfl := Option.some_injective _ h
                push_neg at h2
                obtain ⟨k, hk0, hkeq⟩ : ∃ k, k ≠ 0 ∧ st.exId = some k := by
                  cases hid : st.exId with
                  | none => rw [hid] at h2; cases h2.2
                  | some k =>
                    cases k with
                    | zero => rw [hid] at h2; cases h2.2
                    | succ n => exact ⟨n + 1, Nat.succ_ne_zero n, rfl⟩
                have hgd : alGet template.days (st.target.getD "") =
                    some ((alGet template.days (st.target.getD "")).getD emptyDay) := by
                  cases hg : alGet template.days (st.target.getD "") with
                  | none =>
                    rw [hg] at h3
                    exact absurd (not_not.mp h3) (by simp)
                  | some d => rfl
                have hnd := hin (st.target.getD "") _ hgd
                simp only [hkeq, exIds_append_entry]
                exact nodup_append_single hnd
                  (not_any_id_not_mem (by
                    rw [hkeq] at h5
                    exact eq_false_of_ne_true h5))
              · rw [alGet_alSet_ne _ _ hkey] at h
                exact hin key day h

theorem bulkDayStep_keys (cat : Catalog) (mts : List String) (op : String)
    (st : List (String × Day) × List Nat × List String) (dk : String) :
    keysOf (bulkDayStep cat mts op st dk).1 = keysOf st.1 := by
  unfold bulkDayStep
  cases hget : alGet st.1 dk with
  | none => rfl
  | some dd =>
    dsimp only
    have hsome : (alGet st.1 dk).isSome = true := by rw [hget]; rfl
    by_cases h1 : op = "replace"
    · rw [if_pos h1]
      exact keysOf_alSet_of_mem _ hsome
    · rw [if_neg h1]
      by_cases h2 : op = "add"
      · rw [if_pos h2]
        by_cases h3 : 8 ≤ dd.exercises.length
        · rw [if_pos h3]
        · rw [if_neg h3]
          exact keysOf_alSet_of_mem _ hsome
      · rw [if_neg h2]
        exact keysOf_alSet_of_mem _ hsome

/-- Key preservation for the bulk muscle change. -/
theorem handle_bulk_keys (template : Template)
    (muscle_group operation target_days : String) (specific_count : Option Nat)
    (cat? : Option Catalog) :
    keysOf (handle_bulk_muscle_change template muscle_group operation
      target_days specific_count cat?).1.days = keysOf template.days := by
  unfold handle_bulk_muscle_change
  cases cat? with
  | none => rfl
  | some cat =>
    simp only []
    set tdk := (if target_days = "all" then keysOf template.days
      else if target_days = "specific_count" ∧ truthyNat specific_count then
        (keysOf template.days).take
          (min (specific_count.getD 0) (keysOf template.days).length)
      else []) with htdk
    by_cases hempty : tdk = []
    · rw [if_pos hempty]
    · rw [if_neg hempty]
      have haux : ∀ (ks : List String)
          (st : List (String × Day) × List Nat × List String),
          keysOf (ks.foldl (bulkDayStep cat
            (((bulkMuscleMapping.find? (fun p => p.1 = muscle_group)).map
              Prod.snd).getD [muscle_group]) operation) st).1 = keysOf st.1 := by
        intro ks
        induction ks with
        | nil => intro st; rfl
        | cons k rest ih =>
          intro st
          rw [List.foldl_cons, ih, bulkDayStep_keys]
      exact haux tdk (template.days, [], [])

/-- Key preservation for the title change. -/
theorem apply_title_keys (template : Template) (target_day new_title : String) :
    keysOf (apply_title_change template target_day new_title).1.days =
      keysOf template.days := by
  unfold apply_title_change
  by_cases hc : truthyStr (if pyIsDigit target_day then
      (if 1 ≤ digitsToNat target_day.data ∧ digitsToNat target_day.data ≤ template.days.length then
        (template.days.get? (digitsToNat target_day.data - 1)).map Prod.fst
      else none)
    else (template.days.find? (fun kd =>
      isInfC (lowerC target_day.data) (lowerC kd.1.data) ||
      isInfC (lowerC kd.1.data) (lowerC target_day.data))).map Prod.fst) = true ∧
    (alGet template.days ((if pyIsDigit target_day then
      (if 1 ≤ digitsToNat target_day.data ∧ digitsToNat target_day.data ≤ template.days.length then
        (template.days.get? (digitsToNat target_day.data - 1)).map Prod.fst
      else none)
    else (template.days.find? (fun kd =>
      isInfC (lowerC target_day.data) (lowerC kd.1.data) ||
      isInfC (lowerC kd.1.data) (lowerC target_day.data))).map Prod.fst).getD "")).isSome = true
  · rw [if_pos hc]
    exact keysOf_alSet_of_mem _ hc.2
  · rw [if_neg hc]


theorem findMatchingDayKey_mem {days : List (String × Day)} {td : Chars}
    {mk : String} (h : findMatchingDayKey days td = some mk) :
    mk ∈ keysOf days := by
  unfold findMatchingDayKey at h
  cases hf : days.find? (fun kd =>
      isInfC td (lowerC kd.1.data) || isInfC (lowerC kd.1.data) td) with
  | none => rw [hf] at h; cases h
  | some kd =>
    rw [hf] at h
    obtain rfl : kd.1 = mk := by simpa using h
    exact List.mem_map.2 ⟨kd, List.mem_of_find?_eq_some hf, rfl⟩

theorem dayMuscleBranch_keys {cat : Catalog} {template : Template}
    {td muscle : Chars} {r : Template} {s : String}
    (h : dayMuscleBranch cat template td muscle = .ret r s) :
    keysOf r.days = keysOf template.days := by
  unfold dayMuscleBranch at h
  cases hf : findMatchingDayKey template.days td with
  | none =>
    rw [hf] at h
    cases h
    rfl
  | some mk =>
    rw [hf] at h
    simp only [] at h
    by_cases h1 : dmMatching cat (muscleExerciseNames muscle) = []
    · rw [if_pos h1] at h
      cases h
      rfl
    · rw [if_neg h1] at h
      by_cases h2 : (dmMatching cat (muscleExerciseNames muscle)).length < 6
      · rw [if_pos h2] at h
        cases h
      · rw [if_neg h2] at h
        cases h
        exact keysOf_alSet_of_mem _
          ((alGet_isSome_iff_mem _ _).2 (findMatchingDayKey_mem hf))

theorem step4Replace_keys {cat : Catalog} {template : Template}
    {dayKey : String} {dd : Day} {i : Nat} {ex : Exercise}
    {replOpt : Option String} {r : Template} {s : String}
    (hmem : dayKey ∈ keysOf template.days)
    (h : step4Replace cat template dayKey dd i ex replOpt = .ret r s) :
    keysOf r.days = keysOf template.days := by
  unfold step4Replace at h
  cases hrep : step4RepId cat dd ex replOpt with
  | none =>
    rw [hrep] at h
    cases h
    rfl
  | some rid =>
    rw [hrep] at h
    simp only [] at h
    cases h
    exact keysOf_alSet_of_mem _ ((alGet_isSome_iff_mem _ _).2 hmem)

theorem step4Locate_mem {days : List (String × Day)} {target : String}
    {f : String × Day × Nat × Exercise}
    (h : step4Locate days target = some f) : f.1 ∈ keysOf days := by
  unfold step4Locate at h
  obtain ⟨kd, hkd, hf⟩ := List.exists_of_findSome?_eq_some h
  cases hidx : kd.2.exercises.findIdx? (step4Target target) with
  | none => rw [hidx] at hf; cases hf
  | some i =>
    rw [hidx] at hf
    dsimp only at hf
    cases hget : kd.2.exercises.get? i with
    | none => rw [hget] at hf; cases hf
    | some ex =>
      rw [hget] at hf
      obtain rfl : (kd.1, kd.2, i, ex) = f := by simpa using hf
      exact List.mem_map.2 ⟨kd, hkd, rfl⟩

theorem step4Apply_keys {cat : Catalog} {template : Template}
    {target : String} {replOpt : Option String} {r : Template} {s : String}
    (h : step4Apply cat template target replOpt = .ret r s) :
    keysOf r.days = keysOf template.days := by
  unfold step4Apply at h
  cases hloc : step4Locate template.days target with
  | none =>
    rw [hloc] at h
    cases h
    rfl
  | some f =>
    rw [hloc] at h
    exact step4Replace_keys (step4Locate_mem hloc) h

theorem universalBranch_keys {cat : Catalog} {template : Template}
    {il : Chars} {r : Template} {s : String}
    (h : universalBranch cat template il = .ret r s) :
    keysOf r.days = keysOf template.days := by
  unfold universalBranch at h
  by_cases h1 : (isAltReq il || isRepReq il) = true
  · rw [if_pos h1] at h
    simp only [] at h
    by_cases h2 : truthyStr (universalTarget cat template.days il).1 = true
    · rw [if_pos h2] at h
      exact step4Apply_keys h
    · rw [if_neg h2] at h
      cases h
      rfl
  · rw [if_neg h1] at h
    cases h

/-- Key preservation for the replace/alternate handler on every
`(template, summary)` return (the db-present path never adds or drops
a day key). -/
theorem apply_manual_edit_keys {template : Template} {instruction : String}
    {cat : Catalog} {r : Template} {s : String}
    (h : apply_manual_edit template instruction cat = .ret r s) :
    keysOf r.days = keysOf template.days := by
  unfold apply_manual_edit at h
  simp only [] at h
  cases hp : dayMusclePick (lowerC instruction.data) with
  | some tm =>
    rw [hp] at h
    exact dayMuscleBranch_keys h
  | none =>
    rw [hp] at h
    exact universalBranch_keys h

/-- C3: corrected form. The rename-day, bulk-muscle, add, remove and
replace/alternate handlers and the dynamic gate preserve the day-key
set of the template (remove and replace/alternate on their
template-returning paths); the static gate preserves it only when
every Monday-Saturday key is already present (otherwise it inserts the
missing ones, see the counterexample). -/
theorem C3_amended_day_keys (template : Template) (cat : Catalog)
    (instruction i il target_day new_title muscle_group operation
      target_days : String)
    (specific_count : Option Nat) (cat? : Option Catalog) (names : List String)
    (hstatic : ∀ d ∈ DAYS6, (alGet template.days d).isSome = true) :
    keysOf (apply_title_change template target_day new_title).1.days =
      keysOf template.days ∧
    keysOf (handle_bulk_muscle_change template muscle_group operation
      target_days specific_count cat?).1.days = keysOf template.days ∧
    keysOf (handle_specific_exercise_addition template instruction
      cat).1.days = keysOf template.days ∧
    (∀ r s, apply_manual_edit template instruction cat = .ret r s →
      keysOf r.days = keysOf template.days) ∧
    (∀ r s, handle_remove_exercise template i il = (some r, s) →
      keysOf r.days = keysOf template.days) ∧
    keysOf (enforce_catalog_on_template_db_dynamic cat template names).days =
      keysOf template.days ∧
    keysOf (enforce_catalog_on_template_db cat template).days =
      keysOf template.days := by
  refine ⟨apply_title_keys template target_day new_title,
    handle_bulk_keys template muscle_group operation target_days
      specific_count cat?,
    handle_add_keys template instruction cat,
    fun r s h => apply_manual_edit_keys h,
    fun r s h => handle_remove_keys h, ?_, ?_⟩
  · unfold enforce_catalog_on_template_db_dynamic
    exact dynFold_keys cat names (template.days, [])
  · unfold enforce_catalog_on_template_db
    exact foldl_staticDayWrite_keys cat DAYS6 template.days hstatic

/-- C3 witness: on a template holding all six weekday keys the static
gate keeps the day-key list unchanged. -/
theorem C3_witness :
    keysOf (enforce_catalog_on_template_db catBench tplSix).days =
      keysOf tplSix.days :=
  (C3_amended_day_keys tplSix catBench "a" "a" "a" "a" "a" "a" "a" "all"
    none none [] (by decide)).2.2.2.2.2.2

/-- C3 counterexample: the static gate changes the day-key set of a
template keyed `day1`: it inserts the six weekday keys. -/
theorem C3_counterexample :
    listSetEq (keysOf (enforce_catalog_on_template_db catBench tplDay1).days)
      (keysOf tplDay1.days) = false := by
  with_unfolding_all decide

/-- C9: corrected form. The dynamic gate (over a catalog with at least
six distinct ids) and the add handler preserve within-day id
distinctness; the static gate does not (see the counterexample). -/
theorem C9_amended_unique_ids (cat : Catalog) (template : Template)
    (instruction : String) (names : List String)
    (hk : (catKeys cat).Nodup) (hbig : 6 ≤ (catKeys cat).length)
    (hin : ∀ key day, alGet template.days key = some day →
      (exIds day.exercises).Nodup) :
    (∀ key day,
      alGet (enforce_catalog_on_template_db_dynamic cat template names).days
        key = some day → (exIds day.exercises).Nodup) ∧
    (∀ key day,
      alGet (handle_specific_exercise_addition template instruction
        cat).1.days key = some day → (exIds day.exercises).Nodup) := by
  constructor
  · intro key day h
    unfold enforce_catalog_on_template_db_dynamic at h
    rcases dynFold_get cat names (template.days, []) key day h with
      h2 | ⟨g, day0, rfl⟩
    · exact hin key day h2
    · exact (dynProcessDay_spec cat hk hbig g day0).2.2.2
  · exact handle_add_nodup template instruction cat hin

/-- C9 witness: the dynamic gate on a six-row catalog fills the empty
monday with pairwise distinct ids. -/
theorem C9_witness :
    (exIds ((alGet (enforce_catalog_on_template_db_dynamic cat6 tplW
      ["Monday"]).days "monday").getD emptyDay).exercises).Nodup := by
  have hinW : ∀ key day, alGet tplW.days key = some day →
      (exIds day.exercises).Nodup := by
    intro key day h
    have hd : tplW.days = [("monday", ⟨"Monday", [], []⟩)] := rfl
    rw [hd] at h
    simp only [alGet] at h
    by_cases hk : "monday" = key
    · rw [if_pos hk] at h
      obtain rfl := Option.some_injective _ h
      decide
    · rw [if_neg hk] at h
      cases h
  have hsome : (alGet (enforce_catalog_on_template_db_dynamic cat6 tplW
      ["Monday"]).days "monday").isSome = true := by
    unfold enforce_catalog_on_template_db_dynamic
    exact dynFold_get_isSome cat6 (tplW.days, []) ["Monday"] "monday" (by decide)
  cases hg : alGet (enforce_catalog_on_template_db_dynamic cat6 tplW
      ["Monday"]).days "monday" with
  | none => rw [hg] at hsome; cases hsome
  | some d =>
    simp only [hg, Option.getD_some]
    exact (C9_amended_unique_ids cat6 tplW "hello" ["Monday"] (by decide)
      (by decide) hinW).1 "monday" d hg

/-- C9 counterexample: the static gate duplicates id 1 on a monday whose
ids were distinct, by resolving an off-catalog id through the name. -/
theorem C9_counterexample :
    (exIds ((alGet tplDupRisk.days "monday").getD emptyDay).exercises).Nodup ∧
    exIds ((alGet (enforce_catalog_on_template_db catBench tplDupRisk).days
      "monday").getD emptyDay).exercises = [1, 1] ∧
    ¬ (exIds ((alGet (enforce_catalog_on_template_db catBench
      tplDupRisk).days "monday").getD emptyDay).exercises).Nodup := by
  with_unfolding_all decide

/-- C8 witness: an instruction with no pattern and no day leaves the
template unchanged. -/
theorem C8_witness :
    (handle_specific_exercise_addition tplRem "hello" catBench).1 = tplRem := by
  have hres : addResolve catBench tplRem.days (lowerC "hello".data) =
      .inr ⟨none, none, none⟩ := by
    with_unfolding_all rfl
  exact C8_add_rejects_without_mutation tplRem "hello" catBench
    ⟨none, none, none⟩ hres (Or.inl rfl)

/-- C7: when the instruction does not request a day-count change (both
computed flags false) and the response day-key set differs from the
input templates, llm_edit_template returns the input template
unchanged, with the structure-preserved summary. -/
theorem C7_llm_reject_day_key_change (template : Template)
    (instruction : String) (respT : Template) (respS : Option String)
    (cat : Catalog)
    (hflags : llmDayFlags (lowerC instruction.data)
      (keysOf template.days).length = (false, false))
    (hne : listSetEq (keysOf respT.days) (keysOf template.days) = false) :
    llm_edit_template template instruction (some (some respT, respS)) cat =
      (template, llmCorruptMsg) := by
  unfold llm_edit_template
  simp only [hflags, Option.getD_some]
  rw [if_pos (by rw [hne]; simp), if_neg (by simp)]

/-- C7 witness: a two-day response to an exercise-swap instruction on a
one-day template is reverted. -/
theorem C7_witness :
    llm_edit_template tplRem "swap bench press" (some (some tplSix, none))
      catBench = (tplRem, llmCorruptMsg) :=
  C7_llm_reject_day_key_change tplRem "swap bench press" tplSix none catBench
    (by decide) (by decide)

/-- C10: extract_days_count returns 14 for `2 week` and `two week`
(day counts above 7); standalone numerals are accepted only in 1..7;
and the ASK_DAYS advance check passes on 14. -/
theorem C10_amended_week_day_count :
    extract_days_count "2 week" = some 14 ∧
    extract_days_count "two week" = some 14 ∧
    extract_days_count "5" = some 5 ∧
    extract_days_count "0" = none ∧
    extract_days_count "9" = none ∧
    extract_days_count "14" = none ∧
    askDaysAdvances (extract_days_count "2 week") false = true := by
  decide

/-- C10 counterexample: a number of weeks above 2 is not multiplied by
7: the `week` special phrase catches every text containing `week`
first, so the multiply-by-7 pattern branch is unreachable. -/
theorem C10_counterexample :
    extract_days_count "3 week" = some 7 ∧
    extract_days_count "4 week" = some 7 := by
  decide

end WT
